import Mathlib

/-!
Shallow embedding of the Klondike solitaire rule engine of `solitaire_rs`
(`src/systems.rs`).  Coordinates are embedded as integers: every coordinate
constant the program manipulates (card size 160×240, column positions
`-700 + 180*i`, fan offset 70, quad anchors) is an integer exactly
representable in `f32`, every quad ever built carries the even `CARD_SIZE`,
so the half-extents `size/2` are the exact integers 80 and 120, and the
containment tests only add such values; hence `ℤ` arithmetic agrees with the
`f32` arithmetic of the source on this state space (pointer positions are
modelled at integer coordinates).
Rust `u8` arithmetic is embedded as `Nat` with explicit wrap-around mod 256
(`addu8`, `subu8`), matching release-mode wrapping semantics.
Audio playback and wall-clock timing are external side effects and are not
part of the state model.
-/

namespace Solitaire

/-- Wrapping `u8` addition (`a + b` on `u8`, release semantics). -/
def addu8 (a b : Nat) : Nat := (a % 256 + b % 256) % 256

/-- Wrapping `u8` subtraction (`a - b` on `u8`, release semantics). -/
def subu8 (a b : Nat) : Nat := (a % 256 + (256 - b % 256)) % 256

/-- 2-D vector (`Vec2` in the source, with `f32` fields). -/
structure Vec2 where
  x : ℤ
  y : ℤ
deriving DecidableEq, Repr

/-- Axis-aligned rectangle (`Quad` in the source). -/
structure Quad where
  pos : Vec2
  size : Vec2
deriving DecidableEq, Repr

def Quad.top (q : Quad) : ℤ := q.pos.y + q.size.y / 2
def Quad.bottom (q : Quad) : ℤ := q.pos.y - q.size.y / 2
def Quad.right (q : Quad) : ℤ := q.pos.x + q.size.x / 2
def Quad.left (q : Quad) : ℤ := q.pos.x - q.size.x / 2

/-- `Quad::contains`: `pos.y >= bottom && pos.y <= top && pos.x >= left && pos.x <= right`. -/
def Quad.contains (q : Quad) (p : Vec2) : Bool :=
  decide (q.bottom ≤ p.y) && decide (p.y ≤ q.top) &&
  decide (q.left ≤ p.x) && decide (p.x ≤ q.right)

/-- `CARD_SIZE = Vec2 { x: 160.0, y: 240.0 }`. -/
def CARD_SIZE : Vec2 := ⟨160, 240⟩

/-- `DECK_QUAD`: the stock's quad, pos `(-700, 350)`. -/
def DECK_QUAD : Quad := ⟨⟨-700, 350⟩, CARD_SIZE⟩

/-- The talon's quad: `Stack::empty` re-positioned to `(-520, 350)` in `GameState::new`. -/
def TALON_QUAD : Quad := ⟨⟨-520, 350⟩, CARD_SIZE⟩

/-- Foundation `i`'s quad: pos `(-160 + (CARD_SIZE.x + 20) * i, 350)` from `create_foundations`. -/
def foundationQuad (i : Nat) : Quad := ⟨⟨-160 + 180 * i, 350⟩, CARD_SIZE⟩

/-- Tableau `i`'s column x: `-700 + (CARD_SIZE.x + 20) * i` from `fill_tableaux`. -/
def tabX (i : Nat) : ℤ := -700 + 180 * i

inductive Color where
  | Red
  | Black
deriving DecidableEq, Repr

inductive Suit where
  | Spade
  | Heart
  | Club
  | Diamond
deriving DecidableEq, Repr

/-- A card as stored by the source: ordinal `value` plus derived fields. -/
structure Card where
  value : Nat
  rank : Nat
  color : Color
  suit : Suit
deriving DecidableEq, Repr

/-- `Card::get_rank`: `value % 13`. -/
def Card.get_rank (value : Nat) : Nat := value % 13

/-- `Card::get_color`: black for suits 0 and 2, red otherwise. -/
def Card.get_color (value : Nat) : Color :=
  match value / 13 with
  | 0 => Color.Black
  | 2 => Color.Black
  | _ => Color.Red

/-- `Card::get_suit`. -/
def Card.get_suit (value : Nat) : Suit :=
  match value / 13 with
  | 0 => Suit.Spade
  | 1 => Suit.Heart
  | 2 => Suit.Club
  | _ => Suit.Diamond

/-- `Card::new`. -/
def Card.new (value : Nat) : Card :=
  { value := value
    rank := Card.get_rank value
    color := Card.get_color value
    suit := Card.get_suit value }

/-- An ordered pile of cards with its anchor quad (`Stack` in the source). -/
structure Stack where
  cards : List Card
  quad : Quad
deriving DecidableEq, Repr

/-- A tableau column (`Tableau` in the source). -/
structure Tableau where
  cards : List Card
  card_quads : List Quad
  shown_cards : Nat
  x_position : ℤ
deriving DecidableEq, Repr

/-- `Tableau::calculate_card_quads`, as a function of the card list and the
column position: one quad per card fanned downward by 70, or a single
placeholder quad at `y = 0` when the column is empty. -/
def calculate_card_quads (cards : List Card) (x : ℤ) : List Quad :=
  if cards.length = 0 then
    [⟨⟨x, 0⟩, CARD_SIZE⟩]
  else
    (List.range cards.length).map (fun (i : Nat) => ⟨⟨x, -(70 * (i : ℤ))⟩, CARD_SIZE⟩)

/-- Default card for total indexing (guards in the source prevent its use). -/
def dCard : Card := Card.new 0

def dQuad : Quad := ⟨⟨0, 0⟩, CARD_SIZE⟩

def dTab : Tableau := ⟨[], [], 0, 0⟩

def dStack : Stack := ⟨[], dQuad⟩

/-- The whole mutable game state (timing fields are external and omitted). -/
structure GameState where
  stock : Stack
  talon : Stack
  tableaux : List Tableau
  foundations : List Stack
  hand : Stack
  hand_origin : Nat
  mouse_pos : Vec2
deriving DecidableEq, Repr

/-- Tableau `k` of a state (total; all uses guarantee `k < 7`). -/
def tget (s : GameState) (k : Nat) : Tableau := s.tableaux.getD k dTab

/-- Foundation `f` of a state (total; all uses guarantee `f < 4`). -/
def fget (s : GameState) (f : Nat) : Stack := s.foundations.getD f dStack

/-- `GameState::can_place_on_tableau`: alternating color, descending rank
(`tableau.rank == hand.rank + 1` on `u8`). -/
def can_place_on_tableau (tableau hand : Card) : Bool :=
  decide (tableau.color ≠ hand.color) && decide (tableau.rank = addu8 hand.rank 1)

/-- `GameState::can_place_on_foundation`: empty foundation accepts only rank 0;
otherwise same suit and `foundation.cards[0].rank == hand.rank - 1` on `u8`. -/
def can_place_on_foundation (foundation : Stack) (hand : Card) : Bool :=
  if foundation.cards.length = 0 then
    decide (hand.rank = 0)
  else
    decide ((foundation.cards.headD dCard).suit = hand.suit) &&
    decide ((foundation.cards.headD dCard).rank = subu8 hand.rank 1)

/-- The idle-branch tableau test at quad index `i`: tableau non-empty,
`i >= cards.len() - shown_cards` (face-up), pointer inside `card_quads[i]`.
The source computes `cards.len() - shown_cards` on `usize`; `Nat` truncated
subtraction agrees with it whenever `shown_cards ≤ cards.len()`, which the
invariant `Inv.shle` guarantees for every reachable state (otherwise the
source would underflow). -/
def tabHitPred (t : Tableau) (p : Vec2) (i : Nat) : Bool :=
  decide (0 < t.cards.length) &&
  decide (t.cards.length - t.shown_cards ≤ i) &&
  (t.card_quads.getD i dQuad).contains p

/-- The inner reverse scan of the idle-branch tableau loop: the greatest quad
index `i` (scanning `(0..card_quads.len()).rev()`) passing `tabHitPred`. -/
def tabHitIdx (t : Tableau) (p : Vec2) : Option Nat :=
  (List.range t.card_quads.length).reverse.find? (tabHitPred t p)

/-- The idle-branch tableau loop: first tableau (from running index `k`) whose
scan hits, together with the hit index. -/
def firstTabHit (p : Vec2) : List Tableau → Nat → Option (Nat × Nat)
  | [], _ => none
  | t :: rest, k =>
    match tabHitIdx t p with
    | some i => some (k, i)
    | none => firstTabHit p rest (k + 1)

/-- Index (from a running start `k`) of the first list element satisfying a
predicate: the shape of the source's `for … { if … { …; return } }` loops. -/
def firstIdx (pr : α → Bool) : List α → Nat → Option Nat
  | [], _ => none
  | x :: rest, k => if pr x then some k else firstIdx pr rest (k + 1)

/-- The idle-branch foundation test: non-empty and containing the pointer. -/
def foundHitPred (p : Vec2) (f : Stack) : Bool :=
  decide (0 < f.cards.length) && f.quad.contains p

/-- The idle-branch foundation loop: first non-empty foundation containing the
pointer. -/
def firstFoundHit (p : Vec2) (fs : List Stack) (k : Nat) : Option Nat :=
  firstIdx (foundHitPred p) fs k

/-- The holding-branch tableau test: the last card quad contains the pointer
and the tableau is empty or its last card accepts the hand's first card.
The source indexes `card_quads[card_quads.len() - 1]` unguarded; `getD` with a
default stands in for it, and `calculate_card_quads` never returns an empty
list, so the index is in bounds in every reachable state. -/
def holdTabPred (hand0 : Card) (p : Vec2) (t : Tableau) : Bool :=
  (t.card_quads.getD (t.card_quads.length - 1) dQuad).contains p &&
  (decide (t.cards.length = 0) ||
   can_place_on_tableau (t.cards.getD (t.cards.length - 1) dCard) hand0)

/-- The holding-branch tableau loop: first tableau passing `holdTabPred`. -/
def holdTabTarget (hand0 : Card) (p : Vec2) (ts : List Tableau) (k : Nat) : Option Nat :=
  firstIdx (holdTabPred hand0 p) ts k

/-- The holding-branch foundation test: pointer inside the quad, single-card
hand, and `can_place_on_foundation` passes. -/
def holdFoundPred (hand : List Card) (p : Vec2) (f : Stack) : Bool :=
  f.quad.contains p && decide (hand.length = 1) &&
  can_place_on_foundation f (hand.headD dCard)

/-- The holding-branch foundation loop: first foundation passing
`holdFoundPred`. -/
def holdFoundTarget (hand : List Card) (p : Vec2) (fs : List Stack) (k : Nat) : Option Nat :=
  firstIdx (holdFoundPred hand p) fs k

/-- The stock branch of the idle click: pop the stock's top onto the talon's
front, or recycle the whole talon into the stock; no early return in the
source, so the rest of the idle branch continues on this state. -/
def stockStep (s : GameState) : GameState :=
  if s.stock.quad.contains s.mouse_pos then
    if 0 < s.stock.cards.length then
      { s with
        stock := { s.stock with cards := s.stock.cards.dropLast }
        talon := { s.talon with cards := s.stock.cards.getLastD dCard :: s.talon.cards } }
    else
      { s with
        stock := { s.stock with cards := s.talon.cards }
        talon := { s.talon with cards := [] } }
  else s

/-- Idle-branch tableau pickup at tableau `t`, quad index `i`:
`shown_cards -= (len - i) as u8`, hand takes `cards[i..]`, quads recomputed,
`hand_origin = 5 + t`. -/
def tableauPickup (s : GameState) (t i : Nat) : GameState :=
  let tab := tget s t
  { s with
    tableaux := s.tableaux.set t
      { tab with
        shown_cards := subu8 tab.shown_cards (tab.cards.length - i)
        cards := tab.cards.take i
        card_quads := calculate_card_quads (tab.cards.take i) tab.x_position }
    hand := { s.hand with cards := tab.cards.drop i }
    hand_origin := 5 + t }

/-- Idle-branch foundation pickup at foundation `f`: hand receives the front
card, `hand_origin = 1 + f`. -/
def foundationPickup (s : GameState) (f : Nat) : GameState :=
  let fd := fget s f
  { s with
    foundations := s.foundations.set f { fd with cards := fd.cards.tail }
    hand := { s.hand with cards := s.hand.cards ++ [fd.cards.headD dCard] }
    hand_origin := 1 + f }

/-- The reveal rule applied to the origin tableau `o` of a list of tableaux:
if it still has cards and `shown_cards == 0`, increment `shown_cards`. -/
def revealOrigin (ts : List Tableau) (o : Nat) : List Tableau :=
  if 0 < (ts.getD o dTab).cards.length ∧ (ts.getD o dTab).shown_cards = 0 then
    ts.set o { ts.getD o dTab with shown_cards := (ts.getD o dTab).shown_cards + 1 }
  else ts

/-- Holding-branch placement of the whole hand onto tableau `t`:
`shown_cards += hand.len() as u8`, cards appended, quads recomputed, then the
reveal rule on the origin tableau (skipped when the origin is `t` itself). -/
def placeOnTableau (s : GameState) (t : Nat) : GameState :=
  let tab := tget s t
  let tableaux1 := s.tableaux.set t
    { tab with
      shown_cards := addu8 tab.shown_cards s.hand.cards.length
      cards := tab.cards ++ s.hand.cards
      card_quads := calculate_card_quads (tab.cards ++ s.hand.cards) tab.x_position }
  let tableaux2 :=
    if 5 ≤ s.hand_origin ∧ t ≠ s.hand_origin - 5 then
      revealOrigin tableaux1 (s.hand_origin - 5)
    else tableaux1
  { s with tableaux := tableaux2, hand := { s.hand with cards := [] } }

/-- Holding-branch placement of the (single) hand card onto foundation `f`:
front-insert, then the reveal rule on the origin tableau. -/
def placeOnFoundation (s : GameState) (f : Nat) : GameState :=
  let fd := fget s f
  let tableaux2 :=
    if 5 ≤ s.hand_origin then revealOrigin s.tableaux (s.hand_origin - 5)
    else s.tableaux
  { s with
    foundations := s.foundations.set f
      { fd with cards := s.hand.cards.headD dCard :: fd.cards }
    tableaux := tableaux2
    hand := { s.hand with cards := s.hand.cards.tail } }

/-- `GameState::mouse_click`, following the source's control flow: the idle
branch runs the stock branch (no early return), then the talon, tableau and
foundation pickups (each with an early return); the holding branch tries
tableau placement for every tableau, then foundation placement. -/
def GameState.mouse_click (s : GameState) : GameState :=
  if s.hand.cards.length = 0 then
    let s1 := stockStep s
    if s1.talon.quad.contains s1.mouse_pos ∧ 0 < s1.talon.cards.length then
      { s1 with
        hand := { s1.hand with cards := s1.hand.cards ++ [s1.talon.cards.headD dCard] }
        talon := { s1.talon with cards := s1.talon.cards.tail }
        hand_origin := 0 }
    else
      match firstTabHit s1.mouse_pos s1.tableaux 0 with
      | some (t, i) => tableauPickup s1 t i
      | none =>
        match firstFoundHit s1.mouse_pos s1.foundations 0 with
        | some f => foundationPickup s1 f
        | none => s1
  else
    match holdTabTarget (s.hand.cards.headD dCard) s.mouse_pos s.tableaux 0 with
    | some t => placeOnTableau s t
    | none =>
      match holdFoundTarget s.hand.cards s.mouse_pos s.foundations 0 with
      | some f => placeOnFoundation s f
      | none => s

/-- `GameState::return_card`: origin 0 front-inserts one card into the talon,
origins 1–4 front-insert one card into the matching foundation, origins ≥ 5
append the whole hand to the matching tableau (with `shown_cards` increase and
quad recompute); no-op on an empty hand. -/
def GameState.return_card (s : GameState) : GameState :=
  if s.hand.cards.length ≠ 0 then
    if s.hand_origin = 0 then
      { s with
        talon := { s.talon with cards := s.hand.cards.headD dCard :: s.talon.cards }
        hand := { s.hand with cards := s.hand.cards.tail } }
    else if s.hand_origin ≤ 4 then
      let f := s.hand_origin - 1
      { s with
        foundations := s.foundations.set f
          { fget s f with cards := s.hand.cards.headD dCard :: (fget s f).cards }
        hand := { s.hand with cards := s.hand.cards.tail } }
    else
      let o := s.hand_origin - 5
      let tab := tget s o
      { s with
        tableaux := s.tableaux.set o
          { tab with
            shown_cards := addu8 tab.shown_cards s.hand.cards.length
            cards := tab.cards ++ s.hand.cards
            card_quads := calculate_card_quads (tab.cards ++ s.hand.cards) tab.x_position }
        hand := { s.hand with cards := [] } }
  else s

/-- One step of `GameState::fill_tableaux`'s loop: `n` more tableaux to build
starting at column index `i`, draining `i+1` cards from the deck front each
time; returns the tableaux and the remaining deck. -/
def fill_go : Nat → Nat → List Card → List Tableau × List Card
  | 0, _, deck => ([], deck)
  | n + 1, i, deck =>
    let t : Tableau :=
      { x_position := tabX i
        card_quads := calculate_card_quads (deck.take (i + 1)) (tabX i)
        cards := deck.take (i + 1)
        shown_cards := 1 }
    let r := fill_go n (i + 1) (deck.drop (i + 1))
    (t :: r.1, r.2)

/-- `GameState::fill_tableaux`: deal the seven columns off the deck front. -/
def fill_tableaux (deck : List Card) : List Tableau × List Card := fill_go 7 0 deck

/-- The four foundations of `create_foundations`. -/
def foundations0 : List Stack :=
  [⟨[], foundationQuad 0⟩, ⟨[], foundationQuad 1⟩, ⟨[], foundationQuad 2⟩, ⟨[], foundationQuad 3⟩]

/-- `GameState::new`, parametrised by the shuffled deck `random_deck` produced
(the deck is always some permutation of `Card::new 0 .. Card::new 51`). -/
def GameState.new (deck : List Card) : GameState :=
  let ft := fill_tableaux deck
  { stock := ⟨ft.2, DECK_QUAD⟩
    talon := ⟨[], TALON_QUAD⟩
    tableaux := ft.1
    foundations := foundations0
    hand := ⟨[], ⟨⟨0, 0⟩, CARD_SIZE⟩⟩
    hand_origin := 0
    mouse_pos := ⟨0, 0⟩ }

/-- Concatenation of the card lists of a list of tableaux. -/
def tabsCards : List Tableau → List Card
  | [] => []
  | t :: r => t.cards ++ tabsCards r

/-- Concatenation of the card lists of a list of stacks. -/
def stacksCards : List Stack → List Card
  | [] => []
  | f :: r => f.cards ++ stacksCards r

/-- All cards held anywhere in a state, zone by zone. -/
def zonesCards (s : GameState) : List Card :=
  s.stock.cards ++ s.talon.cards ++ tabsCards s.tableaux ++
    stacksCards s.foundations ++ s.hand.cards

/-- The full 52-card deck in ordinal order. -/
def fullDeck : List Card := (List.range 52).map Card.new

/-- The state invariant maintained by the rule engine: card conservation, the
fixed quad layout, tableau quads kept in sync with the card lists,
`shown_cards` bounded by the pile size, and the hand-origin discipline. -/
structure Inv (s : GameState) : Prop where
  perm : (zonesCards s).Perm fullDeck
  ntab : s.tableaux.length = 7
  nfound : s.foundations.length = 4
  stockq : s.stock.quad = DECK_QUAD
  talonq : s.talon.quad = TALON_QUAD
  foundq : ∀ f, f < 4 → (fget s f).quad = foundationQuad f
  tabx : ∀ k, k < 7 → (tget s k).x_position = tabX k
  tabq : ∀ k, k < 7 →
    (tget s k).card_quads = calculate_card_quads (tget s k).cards (tget s k).x_position
  shle : ∀ k, k < 7 → (tget s k).shown_cards ≤ (tget s k).cards.length
  originlt : s.hand.cards ≠ [] → s.hand_origin < 12
  handone : s.hand.cards ≠ [] → s.hand_origin < 5 → s.hand.cards.length = 1

/-- The states the game can actually be in: a fresh deal from some shuffled
deck, closed under clicks, card returns, pointer moves, and the per-frame
hand-anchor update. -/
inductive Reachable : GameState → Prop
  | init (vals : List Nat) (h : vals.Perm (List.range 52)) :
      Reachable (GameState.new (vals.map Card.new))
  | click {s : GameState} : Reachable s → Reachable s.mouse_click
  | ret {s : GameState} : Reachable s → Reachable s.return_card
  | move {s : GameState} (p : Vec2) : Reachable s → Reachable { s with mouse_pos := p }
  | tick {s : GameState} : Reachable s →
      Reachable { s with hand := { s.hand with quad := { s.hand.quad with pos := s.mouse_pos } } }

/-- The identity-order deck, one concrete value of `random_deck`. -/
def deck0 : List Card := (List.range 52).map Card.new

/-- A concrete freshly dealt state, used in witnesses. -/
def s0 : GameState := GameState.new deck0

/-- `s0` with the pointer over tableau 6's top card. -/
def s0tab : GameState := { s0 with mouse_pos := ⟨380, -420⟩ }

/-- The state after lifting tableau 6's top card into the hand. -/
def holdState : GameState := GameState.mouse_click s0tab

/-- The state after lifting tableau 4's top card (the red 2 of Hearts), with
the pointer moved over tableau 1's last card (the black 3 of Spades), a legal
alternating-color descending drop whose origin tableau is left all
face-down. -/
def holdState2 : GameState :=
  { GameState.mouse_click { s0 with mouse_pos := ⟨20, -280⟩ } with mouse_pos := ⟨-520, -70⟩ }

/-- `s0` with the pointer over the stock. -/
def s0stock : GameState := { s0 with mouse_pos := ⟨-700, 350⟩ }

/-- The state after one stock draw, pointer moved over the talon. -/
def talonState : GameState := { GameState.mouse_click s0stock with mouse_pos := ⟨-520, 350⟩ }

/-! ## Basic list helpers -/

lemma headD_cons_tail {α : Type _} {l : List α} (d : α) (h : l ≠ []) :
    l.headD d :: l.tail = l := by
  cases l with
  | nil => exact absurd rfl h
  | cons a t => rfl

lemma dropLast_concat_getLastD {α : Type _} :
    ∀ (l : List α) (d : α), l ≠ [] → l.dropLast ++ [l.getLastD d] = l
  | [], _, h => absurd rfl h
  | [_], _, _ => rfl
  | a :: b :: t, d, _ => by
    have ih := dropLast_concat_getLastD (b :: t) a (by simp)
    simpa using ih

lemma getD_set {α : Type _} :
    ∀ (l : List α) (k j : Nat) (x d : α),
      (l.set k x).getD j d = if j = k ∧ k < l.length then x else l.getD j d
  | [], k, j, x, d => by simp
  | _ :: _, 0, 0, x, d => by simp
  | a :: t, 0, j + 1, x, d => by simp
  | a :: t, k + 1, 0, x, d => by simp
  | a :: t, k + 1, j + 1, x, d => by
    have ih := getD_set t k j x d
    simp only [List.set, List.getD_cons_succ, ih, List.length_cons]
    have hiff : (j + 1 = k + 1 ∧ k + 1 < t.length + 1) ↔ (j = k ∧ k < t.length) := by omega
    simp only [hiff]

lemma set_getD_self {α : Type _} :
    ∀ (l : List α) (k : Nat) (d : α), k < l.length → l.set k (l.getD k d) = l
  | _ :: _, 0, d, _ => by simp
  | a :: t, k + 1, d, h => by
    simp only [List.set, List.getD_cons_succ, List.cons.injEq, true_and]
    exact set_getD_self t k d (by simpa using h)

lemma getD_mem {α : Type _} :
    ∀ (l : List α) (k : Nat) (d : α), k < l.length → l.getD k d ∈ l
  | a :: t, 0, d, _ => List.mem_cons_self a t
  | a :: t, k + 1, d, h =>
    List.mem_cons_of_mem a (getD_mem t k d (by simpa using h))

/-! ## `u8` arithmetic under no-overflow bounds -/

lemma addu8_eq {a b : Nat} (h : a + b < 256) : addu8 a b = a + b := by
  unfold addu8; omega

lemma subu8_sub {a b : Nat} (hb : b ≤ a) (ha : a < 256) : subu8 a b = a - b := by
  unfold subu8; omega

/-! ## Counting cards across zone lists -/

lemma count_take_drop {α : Type _} [DecidableEq α] (a : α) (l : List α) (i : Nat) :
    (l.take i).count a + (l.drop i).count a = l.count a := by
  rw [← List.count_append, List.take_append_drop]

lemma tabsCards_nil : tabsCards [] = [] := rfl

lemma stacksCards_nil : stacksCards [] = [] := rfl

lemma tabsCards_cons (t : Tableau) (r : List Tableau) :
    tabsCards (t :: r) = t.cards ++ tabsCards r := rfl

lemma stacksCards_cons (f : Stack) (r : List Stack) :
    stacksCards (f :: r) = f.cards ++ stacksCards r := rfl

lemma count_tabsCards_set (a : Card) :
    ∀ (ts : List Tableau) (k : Nat) (tb : Tableau), k < ts.length →
      (tabsCards (ts.set k tb)).count a + ((ts.getD k dTab).cards).count a
        = (tabsCards ts).count a + tb.cards.count a
  | t :: r, 0, tb, _ => by
    simp [tabsCards_cons, List.count_append]; omega
  | t :: r, k + 1, tb, h => by
    have ih := count_tabsCards_set a r k tb (by simpa using h)
    simp only [List.set, tabsCards_cons, List.count_append, List.getD_cons_succ]
    omega

lemma count_stacksCards_set (a : Card) :
    ∀ (fs : List Stack) (k : Nat) (fd : Stack), k < fs.length →
      (stacksCards (fs.set k fd)).count a + ((fs.getD k dStack).cards).count a
        = (stacksCards fs).count a + fd.cards.count a
  | f :: r, 0, fd, _ => by
    simp [stacksCards_cons, List.count_append]; omega
  | f :: r, k + 1, fd, h => by
    have ih := count_stacksCards_set a r k fd (by simpa using h)
    simp only [List.set, stacksCards_cons, List.count_append, List.getD_cons_succ]
    omega

lemma tabsCards_set_cards_eq :
    ∀ (ts : List Tableau) (o : Nat) (tb : Tableau),
      (ts.getD o dTab).cards = tb.cards → tabsCards (ts.set o tb) = tabsCards ts
  | [], _, _, _ => rfl
  | t :: r, 0, tb, h => by
    simp only [List.getD_cons_zero] at h
    simp [List.set, tabsCards_cons, h]
  | t :: r, o + 1, tb, h => by
    simp only [List.getD_cons_succ] at h
    simp [List.set, tabsCards_cons, tabsCards_set_cards_eq r o tb h]

lemma length_cards_le_tabsCards :
    ∀ (ts : List Tableau) (k : Nat), k < ts.length →
      ((ts.getD k dTab).cards).length ≤ (tabsCards ts).length
  | t :: r, 0, _ => by simp [tabsCards_cons]
  | t :: r, k + 1, h => by
    have := length_cards_le_tabsCards r k (by simpa using h)
    simp only [List.getD_cons_succ, tabsCards_cons, List.length_append]
    omega

lemma length_cards_le_stacksCards :
    ∀ (fs : List Stack) (k : Nat), k < fs.length →
      ((fs.getD k dStack).cards).length ≤ (stacksCards fs).length
  | f :: r, 0, _ => by simp [stacksCards_cons]
  | f :: r, k + 1, h => by
    have := length_cards_le_stacksCards r k (by simpa using h)
    simp only [List.getD_cons_succ, stacksCards_cons, List.length_append]
    omega

/-! ## Characterisation of the scan loops -/

lemma firstIdx_eq_none_iff {α : Type _} (pr : α → Bool) :
    ∀ (l : List α) (k : Nat), firstIdx pr l k = none ↔ ∀ x ∈ l, pr x = false
  | [], k => by simp [firstIdx]
  | x :: r, k => by
    cases hx : pr x with
    | true => simp [firstIdx, hx]
    | false => simp [firstIdx, hx, firstIdx_eq_none_iff pr r (k + 1)]

lemma firstIdx_eq_some_iff {α : Type _} (pr : α → Bool) (d : α) :
    ∀ (l : List α) (k t : Nat),
      firstIdx pr l k = some t ↔
        ∃ m, m < l.length ∧ t = k + m ∧ pr (l.getD m d) = true ∧
          ∀ j, j < m → pr (l.getD j d) = false
  | [], k, t => by simp [firstIdx]
  | x :: r, k, t => by
    cases hx : pr x with
    | true =>
      simp only [firstIdx, hx, if_true, Option.some.injEq]
      constructor
      · rintro rfl
        exact ⟨0, by simp, by simp, by simpa using hx, by omega⟩
      · rintro ⟨m, hm, rfl, hpr, hlt⟩
        cases m with
        | zero => simp
        | succ m => exact absurd (hlt 0 (by omega)) (by simpa using hx)
    | false =>
      simp only [firstIdx, hx, Bool.false_eq_true, if_false]
      rw [firstIdx_eq_some_iff pr d r (k + 1) t]
      constructor
      · rintro ⟨m, hm, rfl, hpr, hlt⟩
        refine ⟨m + 1, by simpa using hm, by omega, by simpa using hpr, ?_⟩
        intro j hj
        cases j with
        | zero => simpa using hx
        | succ j => simpa using hlt j (by omega)
      · rintro ⟨m, hm, rfl, hpr, hlt⟩
        cases m with
        | zero => exact absurd (by simpa using hpr) (by simp [hx])
        | succ m =>
          refine ⟨m, by simpa using hm, by omega, by simpa using hpr, ?_⟩
          intro j hj
          simpa using hlt (j + 1) (by omega)

lemma find?_rev_range_eq_some (f : Nat → Bool) :
    ∀ (n i : Nat),
      (List.range n).reverse.find? f = some i ↔
        i < n ∧ f i = true ∧ ∀ j, i < j → j < n → f j = false
  | 0, i => by simp
  | n + 1, i => by
    have hrev : (List.range (n + 1)).reverse = n :: (List.range n).reverse := by
      rw [List.range_succ, List.reverse_append]; rfl
    rw [hrev, List.find?_cons]
    cases hf : f n with
    | true =>
      simp only
      constructor
      · rintro h
        cases h
        exact ⟨by omega, hf, by omega⟩
      · rintro ⟨hi, hfi, hmax⟩
        rcases Nat.lt_or_ge i n with hlt | hge
        · exact absurd (hmax n hlt (by omega)) (by simp [hf])
        · have : i = n := by omega
          rw [this]
    | false =>
      simp only
      rw [find?_rev_range_eq_some f n i]
      constructor
      · rintro ⟨hi, hfi, hmax⟩
        refine ⟨by omega, hfi, ?_⟩
        intro j hij hjn
        rcases Nat.lt_or_ge j n with h | h
        · exact hmax j hij h
        · have : j = n := by omega
          rw [this]; exact hf
      · rintro ⟨hi, hfi, hmax⟩
        have hin : i ≠ n := by
          rintro rfl; rw [hfi] at hf; cases hf
        exact ⟨by omega, hfi, fun j hij hjn => hmax j hij (by omega)⟩

lemma tabHitIdx_some_iff (t : Tableau) (p : Vec2) (i : Nat) :
    tabHitIdx t p = some i ↔
      i < t.card_quads.length ∧ tabHitPred t p i = true ∧
        ∀ j, i < j → j < t.card_quads.length → tabHitPred t p j = false := by
  unfold tabHitIdx
  exact find?_rev_range_eq_some (tabHitPred t p) t.card_quads.length i

lemma tabHitIdx_none_iff (t : Tableau) (p : Vec2) :
    tabHitIdx t p = none ↔ ∀ i, i < t.card_quads.length → tabHitPred t p i = false := by
  unfold tabHitIdx
  rw [List.find?_eq_none]
  constructor
  · intro h i hi
    have : i ∈ (List.range t.card_quads.length).reverse := by
      simp [List.mem_reverse, List.mem_range, hi]
    simpa using h i this
  · intro h i hi
    simp only [List.mem_reverse, List.mem_range] at hi
    simp [h i hi]

lemma firstTabHit_eq_some_iff (p : Vec2) :
    ∀ (ts : List Tableau) (k t i : Nat),
      firstTabHit p ts k = some (t, i) ↔
        ∃ m, m < ts.length ∧ t = k + m ∧ tabHitIdx (ts.getD m dTab) p = some i ∧
          ∀ j, j < m → tabHitIdx (ts.getD j dTab) p = none
  | [], k, t, i => by simp [firstTabHit]
  | x :: r, k, t, i => by
    cases hx : tabHitIdx x p with
    | some i0 =>
      simp only [firstTabHit, hx, Option.some.injEq, Prod.mk.injEq]
      constructor
      · rintro ⟨rfl, rfl⟩
        exact ⟨0, by simp, by simp, by simpa using hx, by omega⟩
      · rintro ⟨m, hm, rfl, hhit, hlt⟩
        cases m with
        | zero =>
          simp only [List.getD_cons_zero] at hhit
          rw [hx] at hhit
          cases hhit
          exact ⟨by simp, rfl⟩
        | succ m => exact absurd (hlt 0 (by omega)) (by simp [hx])
    | none =>
      simp only [firstTabHit, hx]
      rw [firstTabHit_eq_some_iff p r (k + 1) t i]
      constructor
      · rintro ⟨m, hm, rfl, hhit, hlt⟩
        refine ⟨m + 1, by simpa using hm, by omega, by simpa using hhit, ?_⟩
        intro j hj
        cases j with
        | zero => simpa using hx
        | succ j => simpa using hlt j (by omega)
      · rintro ⟨m, hm, rfl, hhit, hlt⟩
        cases m with
        | zero =>
          simp only [List.getD_cons_zero] at hhit
          rw [hx] at hhit; cases hhit
        | succ m =>
          refine ⟨m, by simpa using hm, by omega, by simpa using hhit, ?_⟩
          intro j hj
          simpa using hlt (j + 1) (by omega)

lemma firstTabHit_eq_none (p : Vec2) :
    ∀ (ts : List Tableau) (k : Nat),
      (∀ t ∈ ts, tabHitIdx t p = none) → firstTabHit p ts k = none
  | [], k, _ => rfl
  | x :: r, k, h => by
    have hx := h x (List.mem_cons_self x r)
    simp only [firstTabHit, hx]
    exact firstTabHit_eq_none p r (k + 1) (fun t ht => h t (List.mem_cons_of_mem x ht))

/-! ## State-level helpers -/

lemma length_one_tail {α : Type _} {l : List α} (h : l.length = 1) : l.tail = [] := by
  cases l with
  | nil => rfl
  | cons a t => cases t with
    | nil => rfl
    | cons b r => simp at h

lemma mem_tabsCards_of_mem {c : Card} :
    ∀ (ts : List Tableau) (k : Nat), k < ts.length →
      c ∈ (ts.getD k dTab).cards → c ∈ tabsCards ts
  | t :: r, 0, _, hc => by
    simp only [List.getD_cons_zero] at hc
    simp [tabsCards_cons, hc]
  | t :: r, k + 1, h, hc => by
    simp only [List.getD_cons_succ] at hc
    have := mem_tabsCards_of_mem r k (by simpa using h) hc
    simp [tabsCards_cons, this]

lemma zones_length (s : GameState) (hperm : (zonesCards s).Perm fullDeck) :
    (zonesCards s).length = 52 := by
  have h := hperm.length_eq
  have h52 : fullDeck.length = 52 := by simp [fullDeck]
  omega

lemma tab_hand_le (s : GameState) (hperm : (zonesCards s).Perm fullDeck)
    (o : Nat) (ho : o < s.tableaux.length) :
    (tget s o).cards.length + s.hand.cards.length ≤ 52 := by
  have hlen := zones_length s hperm
  have hsum : (zonesCards s).length =
      s.stock.cards.length + s.talon.cards.length + (tabsCards s.tableaux).length +
        (stacksCards s.foundations).length + s.hand.cards.length := by
    simp [zonesCards]; omega
  have hle := length_cards_le_tabsCards s.tableaux o ho
  unfold tget
  omega

lemma exists_val_of_mem_zones {s : GameState} (hperm : (zonesCards s).Perm fullDeck)
    {c : Card} (hc : c ∈ zonesCards s) : ∃ v, v < 52 ∧ c = Card.new v := by
  have : c ∈ fullDeck := hperm.mem_iff.mp hc
  simp only [fullDeck, List.mem_map, List.mem_range] at this
  obtain ⟨v, hv, rfl⟩ := this
  exact ⟨v, hv, rfl⟩

lemma rank_le_of_mem_zones {s : GameState} (hperm : (zonesCards s).Perm fullDeck)
    {c : Card} (hc : c ∈ zonesCards s) : c.rank ≤ 12 := by
  obtain ⟨v, _, rfl⟩ := exists_val_of_mem_zones hperm hc
  have : v % 13 < 13 := Nat.mod_lt v (by omega)
  simp only [Card.new, Card.get_rank]
  omega

/-! ## `return_card` preserves the invariant -/

lemma inv_return (s : GameState) (hInv : Inv s) : Inv s.return_card := by
  obtain ⟨hperm, hnt, hnf, hsq, htq, hfq, hx, hq, hsh, hol, h1⟩ := hInv
  unfold GameState.return_card
  by_cases hne : s.hand.cards.length ≠ 0
  · rw [if_pos hne]
    have hne' : s.hand.cards ≠ [] := by
      intro h; exact hne (by simp [h])
    have hh := headD_cons_tail (l := s.hand.cards) dCard hne'
    by_cases h0 : s.hand_origin = 0
    · rw [if_pos h0]
      have hone : s.hand.cards.length = 1 := h1 hne' (by omega)
      have htl : s.hand.cards.tail = [] := length_one_tail hone
      refine ⟨?_, hnt, hnf, hsq, htq, hfq, hx, hq, hsh, ?_, ?_⟩
      · refine (List.perm_iff_count.mpr ?_).trans hperm
        intro a
        have hcnt : s.hand.cards.count a =
            (s.hand.cards.headD dCard :: s.hand.cards.tail).count a := by rw [hh]
        simp only [zonesCards, List.count_append, List.count_cons] at hcnt ⊢
        omega
      · intro hcon; rw [htl] at hcon; exact absurd rfl hcon
      · intro hcon; rw [htl] at hcon; exact absurd rfl hcon
    · rw [if_neg h0]
      by_cases h4 : s.hand_origin ≤ 4
      · rw [if_pos h4]
        have hone : s.hand.cards.length = 1 := h1 hne' (by omega)
        have htl : s.hand.cards.tail = [] := length_one_tail hone
        have hflt : s.hand_origin - 1 < s.foundations.length := by omega
        refine ⟨?_, hnt, ?_, hsq, htq, ?_, hx, hq, hsh, ?_, ?_⟩
        · refine (List.perm_iff_count.mpr ?_).trans hperm
          intro a
          have hset := count_stacksCards_set a s.foundations (s.hand_origin - 1)
            { fget s (s.hand_origin - 1) with
                cards := s.hand.cards.headD dCard :: (fget s (s.hand_origin - 1)).cards }
            hflt
          have hcnt : s.hand.cards.count a =
              (s.hand.cards.headD dCard :: s.hand.cards.tail).count a := by rw [hh]
          simp only [fget, List.count_cons] at hset hcnt
          simp only [zonesCards, fget, List.count_append, List.count_cons]
          omega
        · simpa using hnf
        · intro g hg
          simp only [fget, getD_set]
          split_ifs with hcase
          · obtain ⟨hg1, _⟩ := hcase
            rw [hg1]
            exact hfq _ (by omega)
          · exact hfq g hg
        · intro hcon; rw [htl] at hcon; exact absurd rfl hcon
        · intro hcon; rw [htl] at hcon; exact absurd rfl hcon
      · rw [if_neg h4]
        have h5 : 5 ≤ s.hand_origin := by omega
        have ho : s.hand_origin - 5 < s.tableaux.length := by
          have := hol hne'; omega
        have hbound := tab_hand_le s hperm (s.hand_origin - 5) ho
        have hshb := hsh (s.hand_origin - 5) (by omega)
        refine ⟨?_, ?_, hnf, hsq, htq, hfq, ?_, ?_, ?_, ?_, ?_⟩
        · refine (List.perm_iff_count.mpr ?_).trans hperm
          intro a
          have hset := count_tabsCards_set a s.tableaux (s.hand_origin - 5)
            { tget s (s.hand_origin - 5) with
                shown_cards := addu8 (tget s (s.hand_origin - 5)).shown_cards s.hand.cards.length
                cards := (tget s (s.hand_origin - 5)).cards ++ s.hand.cards
                card_quads := calculate_card_quads
                  ((tget s (s.hand_origin - 5)).cards ++ s.hand.cards)
                  (tget s (s.hand_origin - 5)).x_position }
            ho
          simp only [tget, List.count_append] at hset
          simp only [zonesCards, tget, List.count_append, List.count_nil]
          omega
        · simpa using hnt
        · intro k hk
          simp only [tget, getD_set]
          split_ifs with hcase
          · obtain ⟨hk5, _⟩ := hcase
            rw [hk5]
            have := hx (s.hand_origin - 5) (by omega)
            simpa [tget] using this
          · exact hx k hk
        · intro k hk
          simp only [tget, getD_set]
          split_ifs with hcase
          · rfl
          · exact hq k hk
        · intro k hk
          simp only [tget, getD_set]
          split_ifs with hcase
          · have haddu : addu8 (tget s (s.hand_origin - 5)).shown_cards s.hand.cards.length =
                (tget s (s.hand_origin - 5)).shown_cards + s.hand.cards.length :=
              addu8_eq (by omega)
            simp only [tget] at haddu
            simp only [haddu, List.length_append]
            simp only [tget] at hshb
            omega
          · exact hsh k hk
        · intro hcon; exact absurd rfl hcon
        · intro hcon; exact absurd rfl hcon
  · rw [if_neg hne]
    exact ⟨hperm, hnt, hnf, hsq, htq, hfq, hx, hq, hsh, hol, h1⟩

/-! ## `revealOrigin` only touches `shown_cards` -/

lemma revealOrigin_length (ts : List Tableau) (o : Nat) :
    (revealOrigin ts o).length = ts.length := by
  unfold revealOrigin
  split_ifs <;> simp [List.length_set]

lemma revealOrigin_tabsCards (ts : List Tableau) (o : Nat) :
    tabsCards (revealOrigin ts o) = tabsCards ts := by
  unfold revealOrigin
  split_ifs with h
  · exact tabsCards_set_cards_eq ts o _ rfl
  · rfl

lemma revealOrigin_cards (ts : List Tableau) (o k : Nat) :
    ((revealOrigin ts o).getD k dTab).cards = (ts.getD k dTab).cards := by
  unfold revealOrigin
  split_ifs with h
  · rw [getD_set]
    split_ifs with hcase
    · rw [hcase.1]
    · rfl
  · rfl

lemma revealOrigin_quads (ts : List Tableau) (o k : Nat) :
    ((revealOrigin ts o).getD k dTab).card_quads = (ts.getD k dTab).card_quads := by
  unfold revealOrigin
  split_ifs with h
  · rw [getD_set]
    split_ifs with hcase
    · rw [hcase.1]
    · rfl
  · rfl

lemma revealOrigin_x (ts : List Tableau) (o k : Nat) :
    ((revealOrigin ts o).getD k dTab).x_position = (ts.getD k dTab).x_position := by
  unfold revealOrigin
  split_ifs with h
  · rw [getD_set]
    split_ifs with hcase
    · rw [hcase.1]
    · rfl
  · rfl

lemma revealOrigin_shown (ts : List Tableau) (o k : Nat) :
    ((revealOrigin ts o).getD k dTab).shown_cards = (ts.getD k dTab).shown_cards ∨
      (((revealOrigin ts o).getD k dTab).shown_cards = 1 ∧
        (ts.getD k dTab).shown_cards = 0 ∧ 0 < (ts.getD k dTab).cards.length) := by
  unfold revealOrigin
  split_ifs with h
  · obtain ⟨hlen0, hsh0⟩ := h
    rw [getD_set]
    split_ifs with hcase
    · right
      rw [hcase.1]
      refine ⟨by simp [List.getD_eq_getElem?_getD] at hsh0 ⊢; simp [hsh0], ?_, ?_⟩
      · simpa [List.getD_eq_getElem?_getD] using hsh0
      · simpa [List.getD_eq_getElem?_getD] using hlen0
    · left; rfl
  · left; rfl

/-! ## `stockStep` only touches the stock and talon card lists -/

lemma stockStep_hand (s : GameState) : (stockStep s).hand = s.hand := by
  unfold stockStep; split_ifs <;> rfl

lemma stockStep_tableaux (s : GameState) : (stockStep s).tableaux = s.tableaux := by
  unfold stockStep; split_ifs <;> rfl

lemma stockStep_foundations (s : GameState) : (stockStep s).foundations = s.foundations := by
  unfold stockStep; split_ifs <;> rfl

lemma stockStep_mouse (s : GameState) : (stockStep s).mouse_pos = s.mouse_pos := by
  unfold stockStep; split_ifs <;> rfl

lemma stockStep_origin (s : GameState) : (stockStep s).hand_origin = s.hand_origin := by
  unfold stockStep; split_ifs <;> rfl

lemma stockStep_stock_quad (s : GameState) : (stockStep s).stock.quad = s.stock.quad := by
  unfold stockStep; split_ifs <;> rfl

lemma stockStep_talon_quad (s : GameState) : (stockStep s).talon.quad = s.talon.quad := by
  unfold stockStep; split_ifs <;> rfl

/-! ## `mouse_click` branches preserve the invariant -/

lemma inv_stockStep (s : GameState) (hInv : Inv s) : Inv (stockStep s) := by
  obtain ⟨hperm, hnt, hnf, hsq, htq, hfq, hx, hq, hsh, hol, h1⟩ := hInv
  unfold stockStep
  split_ifs with hc hpos
  · have hne : s.stock.cards ≠ [] := by
      intro h; rw [h] at hpos; simp at hpos
    have hdl := dropLast_concat_getLastD s.stock.cards dCard hne
    refine ⟨?_, hnt, hnf, hsq, htq, hfq, hx, hq, hsh, hol, h1⟩
    refine (List.perm_iff_count.mpr ?_).trans hperm
    intro a
    have hcnt : s.stock.cards.count a =
        (s.stock.cards.dropLast ++ [s.stock.cards.getLastD dCard]).count a := by rw [hdl]
    simp only [List.count_append, List.count_cons, List.count_nil] at hcnt
    simp only [zonesCards, List.count_append, List.count_cons]
    omega
  · have hstock : s.stock.cards = [] := List.length_eq_zero.mp (by omega)
    refine ⟨?_, hnt, hnf, hsq, htq, hfq, hx, hq, hsh, hol, h1⟩
    refine (List.perm_iff_count.mpr ?_).trans hperm
    intro a
    simp only [zonesCards, hstock, List.count_append, List.count_nil]
    omega
  · exact ⟨hperm, hnt, hnf, hsq, htq, hfq, hx, hq, hsh, hol, h1⟩

lemma inv_talonPickup (s : GameState) (hInv : Inv s) (hhand : s.hand.cards = [])
    (hne : 0 < s.talon.cards.length) :
    Inv { s with
      hand := { s.hand with cards := s.hand.cards ++ [s.talon.cards.headD dCard] }
      talon := { s.talon with cards := s.talon.cards.tail }
      hand_origin := 0 } := by
  obtain ⟨hperm, hnt, hnf, hsq, htq, hfq, hx, hq, hsh, hol, h1⟩ := hInv
  have hne' : s.talon.cards ≠ [] := by
    intro h; rw [h] at hne; simp at hne
  have hh := headD_cons_tail (l := s.talon.cards) dCard hne'
  refine ⟨?_, hnt, hnf, hsq, htq, hfq, hx, hq, hsh, ?_, ?_⟩
  · refine (List.perm_iff_count.mpr ?_).trans hperm
    intro a
    have hcnt : s.talon.cards.count a =
        (s.talon.cards.headD dCard :: s.talon.cards.tail).count a := by rw [hh]
    simp only [List.count_cons] at hcnt
    simp only [zonesCards, List.count_append, List.count_cons, List.count_nil]
    omega
  · intro _; norm_num
  · intro _ _; simp [hhand]

lemma calc_quads_length (cards : List Card) (x : ℤ) :
    (calculate_card_quads cards x).length = if cards.length = 0 then 1 else cards.length := by
  unfold calculate_card_quads
  split_ifs with h
  · simp
  · rw [List.length_map, List.length_range]

lemma inv_reveal (s : GameState) (hInv : Inv s) (o : Nat) :
    Inv { s with tableaux := revealOrigin s.tableaux o } := by
  obtain ⟨hperm, hnt, hnf, hsq, htq, hfq, hx, hq, hsh, hol, h1⟩ := hInv
  refine ⟨?_, ?_, hnf, hsq, htq, hfq, ?_, ?_, ?_, hol, h1⟩
  · simpa [zonesCards, revealOrigin_tabsCards] using hperm
  · simp [revealOrigin_length, hnt]
  · intro k hk
    show ((revealOrigin s.tableaux o).getD k dTab).x_position = tabX k
    rw [revealOrigin_x]
    exact hx k hk
  · intro k hk
    show ((revealOrigin s.tableaux o).getD k dTab).card_quads =
      calculate_card_quads ((revealOrigin s.tableaux o).getD k dTab).cards
        ((revealOrigin s.tableaux o).getD k dTab).x_position
    rw [revealOrigin_quads, revealOrigin_cards, revealOrigin_x]
    exact hq k hk
  · intro k hk
    have hcards := revealOrigin_cards s.tableaux o k
    rcases revealOrigin_shown s.tableaux o k with h | ⟨hone', _, hlen⟩
    · have := hsh k hk
      simp only [tget] at this ⊢
      rw [h, hcards]
      exact this
    · simp only [tget] at *
      rw [hone', hcards]
      omega

lemma inv_tableauPickup (s : GameState) (hInv : Inv s) (hhand : s.hand.cards = [])
    (t i : Nat) (ht : t < s.tableaux.length)
    (hhit : tabHitIdx (tget s t) s.mouse_pos = some i) :
    Inv (tableauPickup s t i) := by
  obtain ⟨hperm, hnt, hnf, hsq, htq, hfq, hx, hq, hsh, hol, h1⟩ := hInv
  have ht7 : t < 7 := hnt ▸ ht
  rcases (tabHitIdx_some_iff _ _ _).mp hhit with ⟨hiq, hpred, _⟩
  unfold tabHitPred at hpred
  simp only [Bool.and_eq_true, decide_eq_true_eq] at hpred
  obtain ⟨⟨h0, hface⟩, _⟩ := hpred
  have hquads : (tget s t).card_quads =
      calculate_card_quads (tget s t).cards (tget s t).x_position := hq t ht7
  have hilen : i < (tget s t).cards.length := by
    rw [hquads, calc_quads_length] at hiq
    split_ifs at hiq with hzero
    · omega
    · exact hiq
  have hbound := tab_hand_le s hperm t ht
  have hshb := hsh t ht7
  unfold tableauPickup
  refine ⟨?_, ?_, hnf, hsq, htq, hfq, ?_, ?_, ?_, ?_, ?_⟩
  · refine (List.perm_iff_count.mpr ?_).trans hperm
    intro a
    have hset := count_tabsCards_set a s.tableaux t
      { tget s t with
          shown_cards := subu8 (tget s t).shown_cards ((tget s t).cards.length - i)
          cards := (tget s t).cards.take i
          card_quads := calculate_card_quads ((tget s t).cards.take i) (tget s t).x_position }
      ht
    have htd := count_take_drop a (tget s t).cards i
    simp only [tget] at hset htd
    simp only [zonesCards, tget, hhand, List.count_append, List.count_nil]
    omega
  · simp [List.length_set, hnt]
  · intro k hk
    simp only [tget, getD_set]
    split_ifs with hcase
    · rw [hcase.1]
      have := hx t ht7
      simpa [tget] using this
    · exact hx k hk
  · intro k hk
    simp only [tget, getD_set]
    split_ifs with hcase
    · rfl
    · exact hq k hk
  · intro k hk
    simp only [tget, getD_set]
    split_ifs with hcase
    · have hsub : subu8 (tget s t).shown_cards ((tget s t).cards.length - i) =
          (tget s t).shown_cards - ((tget s t).cards.length - i) :=
        subu8_sub (by omega) (by omega)
      simp only [tget] at hsub
      simp only [hsub, List.length_take]
      simp only [tget] at hshb hilen
      omega
    · exact hsh k hk
  · intro _
    simp only
    omega
  · intro _ h5
    simp only at h5
    omega

lemma inv_foundationPickup (s : GameState) (hInv : Inv s) (hhand : s.hand.cards = [])
    (f : Nat) (hf : f < s.foundations.length) (hne : 0 < (fget s f).cards.length) :
    Inv (foundationPickup s f) := by
  obtain ⟨hperm, hnt, hnf, hsq, htq, hfq, hx, hq, hsh, hol, h1⟩ := hInv
  have hf4 : f < 4 := hnf ▸ hf
  have hne' : (fget s f).cards ≠ [] := by
    intro h; rw [h] at hne; simp at hne
  have hh := headD_cons_tail (l := (fget s f).cards) dCard hne'
  unfold foundationPickup
  refine ⟨?_, hnt, ?_, hsq, htq, ?_, hx, hq, hsh, ?_, ?_⟩
  · refine (List.perm_iff_count.mpr ?_).trans hperm
    intro a
    have hset := count_stacksCards_set a s.foundations f
      { fget s f with cards := (fget s f).cards.tail } hf
    have hcnt : (fget s f).cards.count a =
        ((fget s f).cards.headD dCard :: (fget s f).cards.tail).count a := by rw [hh]
    simp only [fget, List.count_cons] at hset hcnt
    simp only [zonesCards, fget, hhand, List.count_append, List.count_cons, List.count_nil]
    omega
  · simp [List.length_set, hnf]
  · intro g hg
    simp only [fget, getD_set]
    split_ifs with hcase
    · rw [hcase.1]
      have := hfq f hf4
      simpa [fget] using this
    · exact hfq g hg
  · intro _
    simp only
    omega
  · intro _ _
    simp [hhand]

lemma inv_placeTabCore (s : GameState) (hInv : Inv s) (t : Nat)
    (ht : t < s.tableaux.length) :
    Inv { s with
      tableaux := s.tableaux.set t
        { tget s t with
            shown_cards := addu8 (tget s t).shown_cards s.hand.cards.length
            cards := (tget s t).cards ++ s.hand.cards
            card_quads := calculate_card_quads ((tget s t).cards ++ s.hand.cards)
              (tget s t).x_position }
      hand := { s.hand with cards := [] } } := by
  obtain ⟨hperm, hnt, hnf, hsq, htq, hfq, hx, hq, hsh, hol, h1⟩ := hInv
  have ht7 : t < 7 := hnt ▸ ht
  have hbound := tab_hand_le s hperm t ht
  have hshb := hsh t ht7
  refine ⟨?_, ?_, hnf, hsq, htq, hfq, ?_, ?_, ?_, ?_, ?_⟩
  · refine (List.perm_iff_count.mpr ?_).trans hperm
    intro a
    have hset := count_tabsCards_set a s.tableaux t
      { tget s t with
          shown_cards := addu8 (tget s t).shown_cards s.hand.cards.length
          cards := (tget s t).cards ++ s.hand.cards
          card_quads := calculate_card_quads ((tget s t).cards ++ s.hand.cards)
            (tget s t).x_position }
      ht
    simp only [tget, List.count_append] at hset
    simp only [zonesCards, tget, List.count_append, List.count_nil]
    omega
  · simp [List.length_set, hnt]
  · intro k hk
    simp only [tget, getD_set]
    split_ifs with hcase
    · rw [hcase.1]
      have := hx t ht7
      simpa [tget] using this
    · exact hx k hk
  · intro k hk
    simp only [tget, getD_set]
    split_ifs with hcase
    · rfl
    · exact hq k hk
  · intro k hk
    simp only [tget, getD_set]
    split_ifs with hcase
    · have haddu : addu8 (tget s t).shown_cards s.hand.cards.length =
          (tget s t).shown_cards + s.hand.cards.length := addu8_eq (by omega)
      simp only [tget] at haddu
      simp only [haddu, List.length_append]
      simp only [tget] at hshb
      omega
    · exact hsh k hk
  · intro hcon; exact absurd rfl hcon
  · intro hcon; exact absurd rfl hcon

lemma inv_placeOnTableau (s : GameState) (hInv : Inv s) (t : Nat)
    (ht : t < s.tableaux.length) : Inv (placeOnTableau s t) := by
  by_cases hrev : 5 ≤ s.hand_origin ∧ t ≠ s.hand_origin - 5
  · simp only [placeOnTableau, if_pos hrev]
    exact inv_reveal _ (inv_placeTabCore s hInv t ht) _
  · simp only [placeOnTableau, if_neg hrev]
    exact inv_placeTabCore s hInv t ht

lemma inv_placeFoundCore (s : GameState) (hInv : Inv s)
    (hone : s.hand.cards.length = 1)
    (f : Nat) (hf : f < s.foundations.length) :
    Inv { s with
      foundations := s.foundations.set f
        { fget s f with cards := s.hand.cards.headD dCard :: (fget s f).cards }
      hand := { s.hand with cards := s.hand.cards.tail } } := by
  obtain ⟨hperm, hnt, hnf, hsq, htq, hfq, hx, hq, hsh, hol, h1⟩ := hInv
  have hf4 : f < 4 := hnf ▸ hf
  have hne' : s.hand.cards ≠ [] := by
    intro h; rw [h] at hone; simp at hone
  have hh := headD_cons_tail (l := s.hand.cards) dCard hne'
  have htl : s.hand.cards.tail = [] := length_one_tail hone
  refine ⟨?_, hnt, ?_, hsq, htq, ?_, hx, hq, hsh, ?_, ?_⟩
  · refine (List.perm_iff_count.mpr ?_).trans hperm
    intro a
    have hset := count_stacksCards_set a s.foundations f
      { fget s f with cards := s.hand.cards.headD dCard :: (fget s f).cards } hf
    have hcnt : s.hand.cards.count a =
        (s.hand.cards.headD dCard :: s.hand.cards.tail).count a := by rw [hh]
    simp only [fget, List.count_cons] at hset hcnt
    simp only [zonesCards, fget, List.count_append, List.count_cons]
    omega
  · simp [List.length_set, hnf]
  · intro g hg
    simp only [fget, getD_set]
    split_ifs with hcase
    · rw [hcase.1]
      have := hfq f hf4
      simpa [fget] using this
    · exact hfq g hg
  · intro hcon; rw [htl] at hcon; exact absurd rfl hcon
  · intro hcon; rw [htl] at hcon; exact absurd rfl hcon

lemma inv_placeOnFoundation (s : GameState) (hInv : Inv s)
    (hone : s.hand.cards.length = 1)
    (f : Nat) (hf : f < s.foundations.length) : Inv (placeOnFoundation s f) := by
  by_cases hrev : 5 ≤ s.hand_origin
  · simp only [placeOnFoundation, if_pos hrev]
    exact inv_reveal _ (inv_placeFoundCore s hInv hone f hf) _
  · simp only [placeOnFoundation, if_neg hrev]
    exact inv_placeFoundCore s hInv hone f hf

/-! ## The dealt state satisfies the invariant -/

lemma fill_go_cards :
    ∀ (n i : Nat) (deck : List Card),
      tabsCards (fill_go n i deck).1 ++ (fill_go n i deck).2 = deck
  | 0, _, deck => rfl
  | n + 1, i, deck => by
    have ih := fill_go_cards n (i + 1) (deck.drop (i + 1))
    simp only [fill_go, tabsCards_cons, List.append_assoc]
    rw [ih, List.take_append_drop]

lemma fill_go_length : ∀ (n i : Nat) (deck : List Card), (fill_go n i deck).1.length = n
  | 0, _, _ => rfl
  | n + 1, i, deck => by
    simp only [fill_go, List.length_cons, fill_go_length n (i + 1) (deck.drop (i + 1))]

lemma inv_new (vals : List Nat) (hp : vals.Perm (List.range 52)) :
    Inv (GameState.new (vals.map Card.new)) := by
  have hlen : (vals.map Card.new).length = 52 := by
    rw [List.length_map, hp.length_eq, List.length_range]
  have hdeck : (vals.map Card.new).Perm fullDeck := by
    unfold fullDeck
    exact hp.map Card.new
  refine ⟨?_, ?_, rfl, rfl, rfl, ?_, ?_, ?_, ?_, ?_, ?_⟩
  · refine (List.perm_iff_count.mpr ?_).trans hdeck
    intro a
    have hfc := congrArg (List.count a) (fill_go_cards 7 0 (vals.map Card.new))
    simp only [List.count_append] at hfc
    simp only [GameState.new, zonesCards, fill_tableaux, List.count_append, List.count_nil,
      stacksCards_cons, foundations0]
    simp only [stacksCards_nil, List.count_nil]
    omega
  · simp only [GameState.new, fill_tableaux]
    exact fill_go_length 7 0 _
  · intro f hf
    interval_cases f <;> rfl
  · intro k hk
    simp only [GameState.new, fill_tableaux, tget, fill_go]
    interval_cases k <;> rfl
  · intro k hk
    simp only [GameState.new, fill_tableaux, tget, fill_go]
    interval_cases k <;> rfl
  · intro k hk
    simp only [GameState.new, fill_tableaux, tget, fill_go]
    interval_cases k <;>
      simp [List.length_take, List.length_drop, List.drop_drop, hlen]
  · intro hcon; exact absurd rfl hcon
  · intro hcon; exact absurd rfl hcon

/-! ## `mouse_click` preserves the invariant -/

lemma inv_click (s : GameState) (hInv : Inv s) : Inv s.mouse_click := by
  unfold GameState.mouse_click
  by_cases hh : s.hand.cards.length = 0
  · rw [if_pos hh]
    have hInv1 : Inv (stockStep s) := inv_stockStep s hInv
    have hhand1 : (stockStep s).hand.cards = [] := by
      rw [stockStep_hand]; exact List.length_eq_zero.mp hh
    by_cases htalon : (stockStep s).talon.quad.contains (stockStep s).mouse_pos ∧
        0 < (stockStep s).talon.cards.length
    · rw [if_pos htalon]
      exact inv_talonPickup _ hInv1 hhand1 htalon.2
    · rw [if_neg htalon]
      cases htab : firstTabHit (stockStep s).mouse_pos (stockStep s).tableaux 0 with
      | some ti =>
        obtain ⟨t, i⟩ := ti
        simp only [htab]
        obtain ⟨m, hm, ht0, hhit, _⟩ := (firstTabHit_eq_some_iff _ _ _ _ _).mp htab
        have hmt : t = m := by omega
        subst hmt
        exact inv_tableauPickup _ hInv1 hhand1 t i hm hhit
      | none =>
        simp only [htab]
        cases hfo : firstFoundHit (stockStep s).mouse_pos (stockStep s).foundations 0 with
        | some f =>
          simp only [hfo]
          obtain ⟨m, hm, hf0, hpr, _⟩ :=
            (firstIdx_eq_some_iff (foundHitPred (stockStep s).mouse_pos) dStack _ _ _).mp hfo
          have hmf : f = m := by omega
          subst hmf
          unfold foundHitPred at hpr
          simp only [Bool.and_eq_true, decide_eq_true_eq] at hpr
          exact inv_foundationPickup _ hInv1 hhand1 f hm hpr.1
        | none =>
          simp only [hfo]
          exact hInv1
  · rw [if_neg hh]
    cases htar : holdTabTarget (s.hand.cards.headD dCard) s.mouse_pos s.tableaux 0 with
    | some t =>
      simp only [htar]
      obtain ⟨m, hm, ht0, _, _⟩ :=
        (firstIdx_eq_some_iff (holdTabPred (s.hand.cards.headD dCard) s.mouse_pos) dTab _ _ _).mp
          htar
      have hmt : t = m := by omega
      subst hmt
      exact inv_placeOnTableau s hInv t hm
    | none =>
      simp only [htar]
      cases hfo : holdFoundTarget s.hand.cards s.mouse_pos s.foundations 0 with
      | some f =>
        simp only [hfo]
        obtain ⟨m, hm, hf0, hpr, _⟩ :=
          (firstIdx_eq_some_iff (holdFoundPred s.hand.cards s.mouse_pos) dStack _ _ _).mp hfo
        have hmf : f = m := by omega
        subst hmf
        unfold holdFoundPred at hpr
        simp only [Bool.and_eq_true, decide_eq_true_eq] at hpr
        exact inv_placeOnFoundation s hInv hpr.1.2 f hm
      | none =>
        simp only [hfo]
        exact hInv

/-! ## Every reachable state satisfies the invariant -/

lemma reachable_inv {s : GameState} (h : Reachable s) : Inv s := by
  induction h with
  | init vals hp => exact inv_new vals hp
  | click _ ih => exact inv_click _ ih
  | ret _ ih => exact inv_return _ ih
  | move p _ ih =>
    obtain ⟨hperm, hnt, hnf, hsq, htq, hfq, hx, hq, hsh, hol, h1⟩ := ih
    exact ⟨hperm, hnt, hnf, hsq, htq, hfq, hx, hq, hsh, hol, h1⟩
  | tick _ ih =>
    obtain ⟨hperm, hnt, hnf, hsq, htq, hfq, hx, hq, hsh, hol, h1⟩ := ih
    exact ⟨hperm, hnt, hnf, hsq, htq, hfq, hx, hq, hsh, hol, h1⟩

/-! ## Geometry of the fixed layout -/

lemma contains_iff (q : Quad) (p : Vec2) :
    q.contains p = true ↔
      q.pos.y - q.size.y / 2 ≤ p.y ∧ p.y ≤ q.pos.y + q.size.y / 2 ∧
        q.pos.x - q.size.x / 2 ≤ p.x ∧ p.x ≤ q.pos.x + q.size.x / 2 := by
  simp [Quad.contains, Quad.top, Quad.bottom, Quad.left, Quad.right,
    Bool.and_eq_true, decide_eq_true_eq, and_assoc]

lemma mem_calc_quads {q : Quad} {cards : List Card} {x : ℤ}
    (h : q ∈ calculate_card_quads cards x) :
    q.size = CARD_SIZE ∧ q.pos.x = x ∧ q.pos.y ≤ 0 := by
  unfold calculate_card_quads at h
  split_ifs at h with hz
  · simp only [List.mem_singleton] at h
    subst h
    refine ⟨rfl, rfl, ?_⟩
    dsimp only
    omega
  · simp only [List.mem_map, List.mem_range] at h
    obtain ⟨i, _, rfl⟩ := h
    refine ⟨rfl, rfl, ?_⟩
    dsimp only
    omega

lemma calc_contains_bounds {q : Quad} {cards : List Card} {x : ℤ} {p : Vec2}
    (hq : q ∈ calculate_card_quads cards x) (hc : q.contains p = true) :
    x - 80 ≤ p.x ∧ p.x ≤ x + 80 ∧ p.y ≤ 120 := by
  obtain ⟨hsz, hpx, hpy⟩ := mem_calc_quads hq
  rw [contains_iff, hsz] at hc
  simp only [CARD_SIZE] at hc
  obtain ⟨h1, h2, h3, h4⟩ := hc
  rw [hpx] at h3 h4
  constructor
  · omega
  constructor
  · omega
  · omega

lemma deck_quad_bounds {p : Vec2} (h : DECK_QUAD.contains p = true) :
    -780 ≤ p.x ∧ p.x ≤ -620 ∧ 230 ≤ p.y ∧ p.y ≤ 470 := by
  rw [contains_iff] at h
  simp only [DECK_QUAD, CARD_SIZE] at h
  omega

lemma not_talon_of_stock {p : Vec2} (h : DECK_QUAD.contains p = true) :
    TALON_QUAD.contains p = false := by
  obtain ⟨_, hx, _, _⟩ := deck_quad_bounds h
  cases hc : TALON_QUAD.contains p with
  | false => rfl
  | true =>
    rw [contains_iff] at hc
    simp only [TALON_QUAD, CARD_SIZE] at hc
    omega

lemma not_found_of_stock {p : Vec2} (f : Nat) (h : DECK_QUAD.contains p = true) :
    (foundationQuad f).contains p = false := by
  obtain ⟨_, hx, _, _⟩ := deck_quad_bounds h
  cases hc : (foundationQuad f).contains p with
  | false => rfl
  | true =>
    rw [contains_iff] at hc
    simp only [foundationQuad, CARD_SIZE] at hc
    have : (0 : ℤ) ≤ 180 * (f : ℤ) := by positivity
    omega

lemma not_calc_of_stock {q : Quad} {cards : List Card} {x : ℤ} {p : Vec2}
    (hq : q ∈ calculate_card_quads cards x) (h : DECK_QUAD.contains p = true) :
    q.contains p = false := by
  obtain ⟨_, _, hy, _⟩ := deck_quad_bounds h
  cases hc : q.contains p with
  | false => rfl
  | true =>
    obtain ⟨_, _, hpy⟩ := calc_contains_bounds hq hc
    omega

lemma calc_columns_disjoint {q q' : Quad} {c c' : List Card} {k k' : Nat} {p : Vec2}
    (hne : k ≠ k') (hq : q ∈ calculate_card_quads c (tabX k))
    (hq' : q' ∈ calculate_card_quads c' (tabX k'))
    (hc : q.contains p = true) : q'.contains p = false := by
  obtain ⟨h1, h2, _⟩ := calc_contains_bounds hq hc
  cases hc' : q'.contains p with
  | false => rfl
  | true =>
    obtain ⟨h3, h4, _⟩ := calc_contains_bounds hq' hc'
    simp only [tabX] at h1 h2 h3 h4
    have hcast : (k : ℤ) ≠ (k' : ℤ) := by exact_mod_cast hne
    omega

/-! ## Hit-scan exclusions under the invariant -/

lemma tabHitIdx_none_of_stock (s : GameState) (hInv : Inv s) (k : Nat) (hk : k < 7)
    (hs : DECK_QUAD.contains s.mouse_pos = true) :
    tabHitIdx (tget s k) s.mouse_pos = none := by
  rw [tabHitIdx_none_iff]
  intro i hi
  unfold tabHitPred
  rw [hInv.tabq k hk]
  have hmem : (calculate_card_quads (tget s k).cards (tget s k).x_position).getD i dQuad ∈
      calculate_card_quads (tget s k).cards (tget s k).x_position := by
    refine getD_mem _ i dQuad ?_
    rw [← hInv.tabq k hk]
    exact hi
  rw [not_calc_of_stock hmem hs]
  simp

lemma firstTabHit_none_of_stock (s : GameState) (hInv : Inv s)
    (hs : DECK_QUAD.contains s.mouse_pos = true) :
    firstTabHit s.mouse_pos s.tableaux 0 = none := by
  apply firstTabHit_eq_none
  intro t ht
  obtain ⟨k, hk, hget⟩ := List.mem_iff_getElem.mp ht
  have hgetD : s.tableaux.getD k dTab = t := by
    rw [List.getD_eq_getElem _ _ hk, hget]
  have := tabHitIdx_none_of_stock s hInv k (by rw [← hInv.ntab]; exact hk) hs
  rw [tget, hgetD] at this
  exact this

lemma firstFoundHit_none_of_stock (s : GameState) (hInv : Inv s)
    (hs : DECK_QUAD.contains s.mouse_pos = true) :
    firstFoundHit s.mouse_pos s.foundations 0 = none := by
  unfold firstFoundHit
  rw [firstIdx_eq_none_iff]
  intro f hf
  obtain ⟨k, hk, hget⟩ := List.mem_iff_getElem.mp hf
  have hgetD : s.foundations.getD k dStack = f := by
    rw [List.getD_eq_getElem _ _ hk, hget]
  have hq : f.quad = foundationQuad k := by
    rw [← hgetD]
    exact hInv.foundq k (by rw [← hInv.nfound]; exact hk)
  unfold foundHitPred
  rw [hq, not_found_of_stock k hs]
  simp

lemma not_stock_of_calc {q : Quad} {cards : List Card} {x : ℤ} {p : Vec2}
    (hq : q ∈ calculate_card_quads cards x) (hc : q.contains p = true) :
    DECK_QUAD.contains p = false := by
  obtain ⟨_, _, hy⟩ := calc_contains_bounds hq hc
  cases hd : DECK_QUAD.contains p with
  | false => rfl
  | true =>
    obtain ⟨_, _, h230, _⟩ := deck_quad_bounds hd
    omega

lemma not_talon_of_calc {q : Quad} {cards : List Card} {x : ℤ} {p : Vec2}
    (hq : q ∈ calculate_card_quads cards x) (hc : q.contains p = true) :
    TALON_QUAD.contains p = false := by
  obtain ⟨_, _, hy⟩ := calc_contains_bounds hq hc
  cases hd : TALON_QUAD.contains p with
  | false => rfl
  | true =>
    rw [contains_iff] at hd
    simp only [TALON_QUAD, CARD_SIZE] at hd
    omega

/-! ## Equations for the branches actually taken by `mouse_click` -/

lemma stockStep_of_not_contains (s : GameState)
    (h : s.stock.quad.contains s.mouse_pos = false) : stockStep s = s := by
  unfold stockStep
  rw [h]
  simp

lemma mouse_click_stock_only (s : GameState) (hInv : Inv s)
    (hh : s.hand.cards.length = 0)
    (hs : s.stock.quad.contains s.mouse_pos = true) :
    s.mouse_click = stockStep s := by
  have hsd : DECK_QUAD.contains s.mouse_pos = true := by
    rw [← hInv.stockq]; exact hs
  unfold GameState.mouse_click
  rw [if_pos hh]
  have htalon : ¬((stockStep s).talon.quad.contains (stockStep s).mouse_pos = true ∧
      0 < (stockStep s).talon.cards.length) := by
    rintro ⟨hc, _⟩
    rw [stockStep_talon_quad, stockStep_mouse, hInv.talonq, not_talon_of_stock hsd] at hc
    cases hc
  rw [if_neg htalon]
  have htab : firstTabHit (stockStep s).mouse_pos (stockStep s).tableaux 0 = none := by
    rw [stockStep_mouse, stockStep_tableaux]
    exact firstTabHit_none_of_stock s hInv hsd
  have hfo : firstFoundHit (stockStep s).mouse_pos (stockStep s).foundations 0 = none := by
    rw [stockStep_mouse, stockStep_foundations]
    exact firstFoundHit_none_of_stock s hInv hsd
  simp only [htab, hfo]

lemma mouse_click_idle_tab (s : GameState) (hh : s.hand.cards.length = 0)
    (hstock : s.stock.quad.contains s.mouse_pos = false)
    (htalon : s.talon.quad.contains s.mouse_pos = false)
    (t i : Nat) (hhit : firstTabHit s.mouse_pos s.tableaux 0 = some (t, i)) :
    s.mouse_click = tableauPickup s t i := by
  unfold GameState.mouse_click
  rw [if_pos hh, stockStep_of_not_contains s hstock]
  have htalon' : ¬(s.talon.quad.contains s.mouse_pos = true ∧ 0 < s.talon.cards.length) := by
    rintro ⟨hc, _⟩
    rw [htalon] at hc
    cases hc
  rw [if_neg htalon']
  simp only [hhit]

lemma mouse_click_hold_tab (s : GameState) (hh : ¬s.hand.cards.length = 0)
    (t : Nat)
    (htar : holdTabTarget (s.hand.cards.headD dCard) s.mouse_pos s.tableaux 0 = some t) :
    s.mouse_click = placeOnTableau s t := by
  unfold GameState.mouse_click
  rw [if_neg hh]
  simp only [htar]

lemma mouse_click_hold_found (s : GameState) (hh : ¬s.hand.cards.length = 0)
    (htar : holdTabTarget (s.hand.cards.headD dCard) s.mouse_pos s.tableaux 0 = none)
    (f : Nat)
    (hfo : holdFoundTarget s.hand.cards s.mouse_pos s.foundations 0 = some f) :
    s.mouse_click = placeOnFoundation s f := by
  unfold GameState.mouse_click
  rw [if_neg hh]
  simp only [htar, hfo]

lemma mouse_click_hold_none (s : GameState) (hh : ¬s.hand.cards.length = 0)
    (htar : holdTabTarget (s.hand.cards.headD dCard) s.mouse_pos s.tableaux 0 = none)
    (hfo : holdFoundTarget s.hand.cards s.mouse_pos s.foundations 0 = none) :
    s.mouse_click = s := by
  unfold GameState.mouse_click
  rw [if_neg hh]
  simp only [htar, hfo]

/-! ## Reachability of the concrete witness states -/

lemma reachable_s0 : Reachable s0 :=
  Reachable.init (List.range 52) (List.Perm.refl _)

lemma reachable_s0tab : Reachable s0tab :=
  Reachable.move _ reachable_s0

lemma reachable_holdState : Reachable holdState :=
  Reachable.click reachable_s0tab

lemma reachable_holdState2 : Reachable holdState2 :=
  Reachable.move _ (Reachable.click (Reachable.move _ reachable_s0))

lemma reachable_s0stock : Reachable s0stock :=
  Reachable.move _ reachable_s0

lemma reachable_talonState : Reachable talonState :=
  Reachable.move _ (Reachable.click reachable_s0stock)

/-! ## Claims -/

/-- C1: in every reachable game state — after `GameState::new` and after every
`mouse_click` and `return_card` — the multiset of card ordinals held across
stock, talon, the seven tableaux, the four foundations and the hand is exactly
the full 52-card deck: no operation duplicates or loses a card. -/
theorem C1_card_conservation (s : GameState) (h : Reachable s) :
    ((zonesCards s).map Card.value).Perm (List.range 52) := by
  have hperm := (reachable_inv h).perm
  have hmap := hperm.map Card.value
  have hfull : fullDeck.map Card.value = List.range 52 := by
    unfold fullDeck
    rw [List.map_map]
    have : (Card.value ∘ Card.new) = id := funext (fun v => rfl)
    rw [this, List.map_id]
  rw [hfull] at hmap
  exact hmap

theorem C1_card_conservation_witness :
    ((zonesCards s0).map Card.value).Perm (List.range 52) :=
  C1_card_conservation s0 reachable_s0

/-- C2: `can_place_on_foundation` accepts on an empty foundation exactly the
rank-0 cards (Aces), and on a non-empty foundation exactly a same-suit card of
rank one above the front card; in particular an Ace offered to a non-empty
foundation is rejected (the wrapped `rank - 1` equals 255, matching no real
rank) rather than accepted or mis-handled. -/
theorem C2_foundation_rule (fd : Stack) (c : Card)
    (hfd : ∀ x ∈ fd.cards, x.rank ≤ 12) (hc : c.rank ≤ 12) :
    (can_place_on_foundation fd c = true ↔
      ((fd.cards = [] ∧ c.rank = 0) ∨
        (fd.cards ≠ [] ∧ (fd.cards.headD dCard).suit = c.suit ∧
          (fd.cards.headD dCard).rank + 1 = c.rank))) ∧
    (fd.cards ≠ [] → c.rank = 0 → can_place_on_foundation fd c = false) := by
  cases hcs : fd.cards with
  | nil =>
    unfold can_place_on_foundation
    rw [hcs]
    constructor
    · simp
    · intro hne _
      exact absurd rfl hne
  | cons hd tl =>
    have hrank : hd.rank ≤ 12 := hfd hd (by rw [hcs]; exact List.mem_cons_self _ _)
    constructor
    · unfold can_place_on_foundation
      rw [hcs]
      simp only [List.length_cons, List.headD_cons]
      rw [if_neg (Nat.succ_ne_zero tl.length)]
      rw [Bool.and_eq_true, decide_eq_true_eq, decide_eq_true_eq]
      by_cases hc0 : c.rank = 0
      · have hsub : subu8 c.rank 1 = 255 := by unfold subu8; omega
        rw [hsub]
        constructor
        · rintro ⟨_, h⟩
          omega
        · rintro (⟨h, _⟩ | ⟨_, _, h⟩)
          · simp at h
          · omega
      · have hsub : subu8 c.rank 1 = c.rank - 1 := by unfold subu8; omega
        rw [hsub]
        constructor
        · rintro ⟨h1, h2⟩
          exact Or.inr ⟨by simp, h1, by omega⟩
        · rintro (⟨h, _⟩ | ⟨_, h1, h2⟩)
          · simp at h
          · exact ⟨h1, by omega⟩
    · intro _ hc0
      unfold can_place_on_foundation
      rw [hcs]
      simp only [List.length_cons, List.headD_cons]
      rw [if_neg (Nat.succ_ne_zero tl.length)]
      have hsub : subu8 c.rank 1 = 255 := by unfold subu8; omega
      rw [hsub]
      have hne255 : hd.rank ≠ 255 := by omega
      simp [hne255]

theorem C2_foundation_rule_witness :
    can_place_on_foundation ⟨[Card.new 0], dQuad⟩ (Card.new 1) = true := by
  have h := C2_foundation_rule ⟨[Card.new 0], dQuad⟩ (Card.new 1) (by decide) (by decide)
  exact h.1.mpr (Or.inr ⟨by decide, by decide, by decide⟩)

/-- C3: with a non-empty hand, a click whose pointer passes no tableau's
last-quad placement test and no foundation's single-card foundation test
leaves the whole game state unchanged — illegal moves are rejected with no
partial mutation. -/
theorem C3_illegal_drop_rejected (s : GameState) (hne : s.hand.cards ≠ [])
    (htab : ∀ t ∈ s.tableaux, holdTabPred (s.hand.cards.headD dCard) s.mouse_pos t = false)
    (hfo : ∀ f ∈ s.foundations, holdFoundPred s.hand.cards s.mouse_pos f = false) :
    s.mouse_click = s := by
  apply mouse_click_hold_none
  · intro hcon
    exact hne (List.length_eq_zero.mp hcon)
  · unfold holdTabTarget
    exact (firstIdx_eq_none_iff _ _ _).mpr htab
  · unfold holdFoundTarget
    exact (firstIdx_eq_none_iff _ _ _).mpr hfo

theorem C3_illegal_drop_rejected_witness :
    holdState.hand.cards ≠ [] ∧ holdState.mouse_click = holdState :=
  ⟨by decide, C3_illegal_drop_rejected holdState (by decide) (by decide) (by decide)⟩

/-- C5: with an empty hand and the pointer inside the stock quad, a click on a
non-empty stock moves exactly the stock's top card to the front of the talon
(sizes −1/+1); on an empty stock with a non-empty talon it drains the whole
talon, in its original order, back into the stock. -/
theorem C5_stock_click (s : GameState) (hR : Reachable s) (hh : s.hand.cards = [])
    (hs : s.stock.quad.contains s.mouse_pos = true) :
    (0 < s.stock.cards.length →
      s.mouse_click = { s with
          stock := { s.stock with cards := s.stock.cards.dropLast }
          talon := { s.talon with cards := s.stock.cards.getLastD dCard :: s.talon.cards } } ∧
      s.mouse_click.stock.cards.length = s.stock.cards.length - 1 ∧
      s.mouse_click.talon.cards.length = s.talon.cards.length + 1 ∧
      s.mouse_click.talon.cards.headD dCard = s.stock.cards.getLastD dCard) ∧
    (s.stock.cards.length = 0 → 0 < s.talon.cards.length →
      s.mouse_click = { s with
          stock := { s.stock with cards := s.talon.cards }
          talon := { s.talon with cards := [] } } ∧
      s.mouse_click.stock.cards = s.talon.cards ∧
      s.mouse_click.talon.cards = []) := by
  have hInv := reachable_inv hR
  have heq := mouse_click_stock_only s hInv (by simp [hh]) hs
  constructor
  · intro hpos
    have hstep : stockStep s = { s with
        stock := { s.stock with cards := s.stock.cards.dropLast }
        talon := { s.talon with cards := s.stock.cards.getLastD dCard :: s.talon.cards } } := by
      unfold stockStep
      rw [hs]
      simp only [if_true]
      rw [if_pos hpos]
    rw [heq, hstep]
    refine ⟨rfl, ?_, ?_, ?_⟩
    · simp [List.length_dropLast]
    · simp
    · simp
  · intro hz hpos
    have hstep : stockStep s = { s with
        stock := { s.stock with cards := s.talon.cards }
        talon := { s.talon with cards := [] } } := by
      unfold stockStep
      rw [hs]
      simp only [if_true]
      rw [if_neg (by omega)]
    rw [heq, hstep]
    exact ⟨rfl, rfl, rfl⟩

theorem C5_stock_click_witness :
    0 < s0stock.stock.cards.length ∧
      s0stock.mouse_click.stock.cards.length = s0stock.stock.cards.length - 1 ∧
      s0stock.mouse_click.talon.cards.length = s0stock.talon.cards.length + 1 ∧
      s0stock.mouse_click.talon.cards.headD dCard = s0stock.stock.cards.getLastD dCard :=
  ⟨by decide,
    ((C5_stock_click s0stock reachable_s0stock (by decide) (by decide)).1 (by decide)).2⟩

/-- C9: `return_card` on a reachable state with a non-empty hand sends all
held cards back to the `hand_origin` zone — front-insert into the talon for
origin 0, front-insert into foundation `origin-1` for origins 1–4 (the hand is
a single card there), append to tableau `origin-5` with `shown_cards`
increased by the hand size and quads recomputed for origins ≥ 5 — leaving the
hand empty; with an empty hand it is a no-op. -/
theorem C9_return_card (s : GameState) (hR : Reachable s) :
    (s.hand.cards ≠ [] →
      (s.hand_origin = 0 →
        s.return_card = { s with
          talon := { s.talon with cards := s.hand.cards ++ s.talon.cards }
          hand := { s.hand with cards := [] } }) ∧
      (1 ≤ s.hand_origin → s.hand_origin ≤ 4 →
        s.return_card = { s with
          foundations := s.foundations.set (s.hand_origin - 1)
            { fget s (s.hand_origin - 1) with
                cards := s.hand.cards ++ (fget s (s.hand_origin - 1)).cards }
          hand := { s.hand with cards := [] } }) ∧
      (5 ≤ s.hand_origin →
        s.return_card = { s with
          tableaux := s.tableaux.set (s.hand_origin - 5)
            { tget s (s.hand_origin - 5) with
                shown_cards := (tget s (s.hand_origin - 5)).shown_cards + s.hand.cards.length
                cards := (tget s (s.hand_origin - 5)).cards ++ s.hand.cards
                card_quads := calculate_card_quads
                  ((tget s (s.hand_origin - 5)).cards ++ s.hand.cards)
                  (tget s (s.hand_origin - 5)).x_position }
          hand := { s.hand with cards := [] } }) ∧
      s.return_card.hand.cards = []) ∧
    (s.hand.cards = [] → s.return_card = s) := by
  have hInv := reachable_inv hR
  constructor
  · intro hne
    have hlen : s.hand.cards.length ≠ 0 := by
      intro hcon
      exact hne (List.length_eq_zero.mp hcon)
    have h12 := hInv.originlt hne
    have hcase0 : s.hand_origin = 0 →
        s.return_card = { s with
          talon := { s.talon with cards := s.hand.cards ++ s.talon.cards }
          hand := { s.hand with cards := [] } } := by
      intro h0
      have hone := hInv.handone hne (by omega)
      obtain ⟨a, ha⟩ := List.length_eq_one.mp hone
      unfold GameState.return_card
      rw [if_pos hlen, if_pos h0]
      simp [ha]
    have hcase14 : 1 ≤ s.hand_origin → s.hand_origin ≤ 4 →
        s.return_card = { s with
          foundations := s.foundations.set (s.hand_origin - 1)
            { fget s (s.hand_origin - 1) with
                cards := s.hand.cards ++ (fget s (s.hand_origin - 1)).cards }
          hand := { s.hand with cards := [] } } := by
      intro h1 h4
      have hone := hInv.handone hne (by omega)
      obtain ⟨a, ha⟩ := List.length_eq_one.mp hone
      unfold GameState.return_card
      rw [if_pos hlen, if_neg (by omega), if_pos h4]
      simp [ha]
    have hcase5 : 5 ≤ s.hand_origin →
        s.return_card = { s with
          tableaux := s.tableaux.set (s.hand_origin - 5)
            { tget s (s.hand_origin - 5) with
                shown_cards := (tget s (s.hand_origin - 5)).shown_cards + s.hand.cards.length
                cards := (tget s (s.hand_origin - 5)).cards ++ s.hand.cards
                card_quads := calculate_card_quads
                  ((tget s (s.hand_origin - 5)).cards ++ s.hand.cards)
                  (tget s (s.hand_origin - 5)).x_position }
          hand := { s.hand with cards := [] } } := by
      intro h5
      have ho : s.hand_origin - 5 < s.tableaux.length := by
        rw [hInv.ntab]; omega
      have hbound := tab_hand_le s hInv.perm (s.hand_origin - 5) ho
      have hshb := hInv.shle (s.hand_origin - 5) (by omega)
      have haddu : addu8 (tget s (s.hand_origin - 5)).shown_cards s.hand.cards.length =
          (tget s (s.hand_origin - 5)).shown_cards + s.hand.cards.length :=
        addu8_eq (by omega)
      unfold GameState.return_card
      rw [if_pos hlen, if_neg (by omega), if_neg (by omega)]
      dsimp only
      rw [haddu]
    refine ⟨hcase0, hcase14, hcase5, ?_⟩
    rcases Nat.lt_or_ge s.hand_origin 5 with hlt | hge
    · rcases Nat.eq_zero_or_pos s.hand_origin with h0 | h1
      · rw [hcase0 h0]
      · rw [hcase14 h1 (by omega)]
    · rw [hcase5 hge]
  · intro hz
    unfold GameState.return_card
    rw [if_neg (by simp [hz])]

theorem C9_return_card_witness :
    holdState.hand.cards ≠ [] ∧ 5 ≤ holdState.hand_origin ∧
      holdState.return_card.hand.cards = [] ∧
      (tget holdState.return_card 6).cards = (tget holdState 6).cards ++ holdState.hand.cards :=
  ⟨by decide, by decide,
    ((C9_return_card holdState reachable_holdState).1 (by decide)).2.2.2,
    by
      have h := (((C9_return_card holdState reachable_holdState).1 (by decide)).2.2.1 (by decide))
      rw [h]
      decide⟩

/-- C10: in every reachable state whose hand is non-empty with
`hand_origin ≤ 4` (talon or foundation origin), the hand holds exactly one
card, so `return_card`'s single-card removal for these origins empties the
hand. -/
theorem C10_singleton_hand (s : GameState) (hR : Reachable s)
    (hne : s.hand.cards ≠ []) (h4 : s.hand_origin < 5) :
    s.hand.cards.length = 1 ∧ s.return_card.hand.cards = [] := by
  have hInv := reachable_inv hR
  have hone := hInv.handone hne h4
  refine ⟨hone, ?_⟩
  obtain ⟨a, ha⟩ := List.length_eq_one.mp hone
  have hlen : s.hand.cards.length ≠ 0 := by
    intro hcon
    exact hne (List.length_eq_zero.mp hcon)
  unfold GameState.return_card
  rw [if_pos hlen]
  by_cases h0 : s.hand_origin = 0
  · rw [if_pos h0]
    simp [ha]
  · rw [if_neg h0, if_pos (by omega)]
    simp [ha]

theorem C10_singleton_hand_witness :
    (GameState.mouse_click talonState).hand.cards ≠ [] ∧
      (GameState.mouse_click talonState).hand_origin < 5 ∧
      (GameState.mouse_click talonState).hand.cards.length = 1 ∧
      (GameState.mouse_click talonState).return_card.hand.cards = [] :=
  ⟨by decide, by decide,
    (C10_singleton_hand _ (Reachable.click reachable_talonState) (by decide) (by decide)).1,
    (C10_singleton_hand _ (Reachable.click reachable_talonState) (by decide) (by decide)).2⟩

lemma tableau_ext (t1 t2 : Tableau) (h1 : t1.cards = t2.cards)
    (h2 : t1.card_quads = t2.card_quads) (h3 : t1.shown_cards = t2.shown_cards)
    (h4 : t1.x_position = t2.x_position) : t1 = t2 := by
  cases t1
  cases t2
  simp only at h1 h2 h3 h4
  rw [h1, h2, h3, h4]

lemma tableauPickup_def (s : GameState) (t i : Nat) :
    tableauPickup s t i = { s with
      tableaux := s.tableaux.set t
        { tget s t with
            shown_cards := subu8 (tget s t).shown_cards ((tget s t).cards.length - i)
            cards := (tget s t).cards.take i
            card_quads := calculate_card_quads ((tget s t).cards.take i)
              (tget s t).x_position }
      hand := { s.hand with cards := (tget s t).cards.drop i }
      hand_origin := 5 + t } := rfl

/-- C4: lifting a face-up run out of a tableau (`hand_origin = 5 + k`) and
immediately returning it restores that tableau's card list, `shown_cards` and
`card_quads` exactly, leaves every other zone untouched, and empties the
hand. -/
theorem C4_pickup_return_roundtrip (s : GameState) (hR : Reachable s)
    (hh : s.hand.cards = []) (t i : Nat)
    (hhit : firstTabHit s.mouse_pos s.tableaux 0 = some (t, i)) :
    s.mouse_click.return_card.stock = s.stock ∧
    s.mouse_click.return_card.talon = s.talon ∧
    s.mouse_click.return_card.tableaux = s.tableaux ∧
    s.mouse_click.return_card.foundations = s.foundations ∧
    s.mouse_click.return_card.hand.cards = [] := by
  have hInv := reachable_inv hR
  obtain ⟨m, hm, ht0, hIdx, _⟩ := (firstTabHit_eq_some_iff _ _ _ _ _).mp hhit
  have htm : t = m := by omega
  subst htm
  have ht : t < s.tableaux.length := hm
  have ht7 : t < 7 := hInv.ntab ▸ ht
  rcases (tabHitIdx_some_iff _ _ _).mp hIdx with ⟨hiq, hpred, _⟩
  unfold tabHitPred at hpred
  simp only [Bool.and_eq_true, decide_eq_true_eq] at hpred
  obtain ⟨⟨h0, hface⟩, hcont⟩ := hpred
  have hquads := hInv.tabq t ht7
  simp only [tget] at hquads
  have hilen : i < (s.tableaux.getD t dTab).cards.length := by
    have h := hiq
    rw [hquads, calc_quads_length] at h
    split_ifs at h with hzero
    · omega
    · exact h
  have hmemq : (s.tableaux.getD t dTab).card_quads.getD i dQuad ∈
      calculate_card_quads (s.tableaux.getD t dTab).cards
        (s.tableaux.getD t dTab).x_position := by
    rw [← hquads]
    exact getD_mem _ i dQuad hiq
  have hstock : s.stock.quad.contains s.mouse_pos = false := by
    rw [hInv.stockq]
    exact not_stock_of_calc hmemq hcont
  have htalonc : s.talon.quad.contains s.mouse_pos = false := by
    rw [hInv.talonq]
    exact not_talon_of_calc hmemq hcont
  have heq := mouse_click_idle_tab s (by simp [hh]) hstock htalonc t i hhit
  have hshb := hInv.shle t ht7
  simp only [tget] at hshb
  have hb52 := tab_hand_le s hInv.perm t ht
  simp only [tget] at hb52
  have hlensub : (s.tableaux.getD t dTab).cards.length - i ≤
      (s.tableaux.getD t dTab).shown_cards := by omega
  rw [heq, tableauPickup_def]
  simp only [tget]
  unfold GameState.return_card
  dsimp only
  rw [if_pos
    (by rw [List.length_drop]; omega : ¬((s.tableaux.getD t dTab).cards.drop i).length = 0)]
  rw [if_neg (by omega : ¬5 + t = 0)]
  rw [if_neg (by omega : ¬5 + t ≤ 4)]
  dsimp only [tget]
  have ht5 : 5 + t - 5 = t := by omega
  rw [ht5]
  have hTset : (s.tableaux.set t
      { s.tableaux.getD t dTab with
          shown_cards := subu8 (s.tableaux.getD t dTab).shown_cards
            ((s.tableaux.getD t dTab).cards.length - i)
          cards := (s.tableaux.getD t dTab).cards.take i
          card_quads := calculate_card_quads ((s.tableaux.getD t dTab).cards.take i)
            (s.tableaux.getD t dTab).x_position }).getD t dTab =
      { s.tableaux.getD t dTab with
          shown_cards := subu8 (s.tableaux.getD t dTab).shown_cards
            ((s.tableaux.getD t dTab).cards.length - i)
          cards := (s.tableaux.getD t dTab).cards.take i
          card_quads := calculate_card_quads ((s.tableaux.getD t dTab).cards.take i)
            (s.tableaux.getD t dTab).x_position } := by
    rw [getD_set]
    simp [ht]
  rw [hTset]
  dsimp only
  refine ⟨rfl, rfl, ?_, rfl, rfl⟩
  rw [List.set_set]
  have hsh : addu8
      (subu8 (s.tableaux.getD t dTab).shown_cards
        ((s.tableaux.getD t dTab).cards.length - i))
      ((s.tableaux.getD t dTab).cards.drop i).length =
      (s.tableaux.getD t dTab).shown_cards := by
    rw [List.length_drop]
    rw [subu8_sub hlensub (by omega)]
    rw [addu8_eq (by omega)]
    omega
  have hrestored : ({ s.tableaux.getD t dTab with
      shown_cards := addu8
        (subu8 (s.tableaux.getD t dTab).shown_cards
          ((s.tableaux.getD t dTab).cards.length - i))
        ((s.tableaux.getD t dTab).cards.drop i).length
      cards := (s.tableaux.getD t dTab).cards.take i ++ (s.tableaux.getD t dTab).cards.drop i
      card_quads := calculate_card_quads
        ((s.tableaux.getD t dTab).cards.take i ++ (s.tableaux.getD t dTab).cards.drop i)
        (s.tableaux.getD t dTab).x_position } : Tableau) = s.tableaux.getD t dTab := by
    refine tableau_ext _ _ ?_ ?_ ?_ rfl
    · exact List.take_append_drop i (s.tableaux.getD t dTab).cards
    · show calculate_card_quads
        ((s.tableaux.getD t dTab).cards.take i ++ (s.tableaux.getD t dTab).cards.drop i)
        (s.tableaux.getD t dTab).x_position = (s.tableaux.getD t dTab).card_quads
      rw [List.take_append_drop]
      exact hquads.symm
    · exact hsh
  rw [hrestored]
  exact set_getD_self _ _ _ ht

theorem C4_pickup_return_roundtrip_witness :
    s0tab.hand.cards = [] ∧
      s0tab.mouse_click.return_card.tableaux = s0tab.tableaux ∧
      s0tab.mouse_click.return_card.hand.cards = [] :=
  ⟨by decide,
    (C4_pickup_return_roundtrip s0tab reachable_s0tab (by decide) 6 6 (by decide)).2.2.1,
    (C4_pickup_return_roundtrip s0tab reachable_s0tab (by decide) 6 6 (by decide)).2.2.2.2⟩

lemma getD_set_ne {α : Type _} {l : List α} {k j : Nat} (h : j ≠ k) (x d : α) :
    (l.set k x).getD j d = l.getD j d := by
  rw [getD_set]
  exact if_neg (fun hc => h hc.1)

lemma getD_default_of_le {α : Type _} :
    ∀ (l : List α) (k : Nat) (d : α), l.length ≤ k → l.getD k d = d
  | [], _, _, _ => rfl
  | a :: t, k + 1, d, h => getD_default_of_le t k d (by simpa using h)

lemma revealOrigin_shown_at (ts : List Tableau) (o : Nat) :
    ((revealOrigin ts o).getD o dTab).shown_cards =
      if (ts.getD o dTab).cards ≠ [] ∧ (ts.getD o dTab).shown_cards = 0 then 1
      else (ts.getD o dTab).shown_cards := by
  unfold revealOrigin
  by_cases hC : 0 < (ts.getD o dTab).cards.length ∧ (ts.getD o dTab).shown_cards = 0
  · rw [if_pos hC]
    have holt : o < ts.length := by
      by_contra hcon
      have hd := getD_default_of_le ts o dTab (by omega)
      rw [hd] at hC
      simp [dTab] at hC
    rw [getD_set, if_pos ⟨rfl, holt⟩]
    dsimp only
    rw [if_pos ⟨by
        intro hnil
        rw [hnil] at hC
        simp at hC, hC.2⟩]
    omega
  · rw [if_neg hC]
    rw [if_neg (fun hC2 => hC ⟨List.length_pos.mpr hC2.1, hC2.2⟩)]

/-- C8: when a click drops tableau-origin hand cards (`hand_origin ≥ 5`) onto
a different tableau or onto a foundation, the origin tableau's `shown_cards`
becomes 1 exactly when it still has cards and had `shown_cards = 0`;
otherwise it is left as it was. -/
theorem C8_reveal_rule (s : GameState) (hne : s.hand.cards ≠ [])
    (h5 : 5 ≤ s.hand_origin) :
    (∀ t, holdTabTarget (s.hand.cards.headD dCard) s.mouse_pos s.tableaux 0 = some t →
      t ≠ s.hand_origin - 5 →
      (tget s.mouse_click (s.hand_origin - 5)).shown_cards =
        (if (tget s (s.hand_origin - 5)).cards ≠ [] ∧
            (tget s (s.hand_origin - 5)).shown_cards = 0
         then 1 else (tget s (s.hand_origin - 5)).shown_cards)) ∧
    (holdTabTarget (s.hand.cards.headD dCard) s.mouse_pos s.tableaux 0 = none →
      ∀ f, holdFoundTarget s.hand.cards s.mouse_pos s.foundations 0 = some f →
      (tget s.mouse_click (s.hand_origin - 5)).shown_cards =
        (if (tget s (s.hand_origin - 5)).cards ≠ [] ∧
            (tget s (s.hand_origin - 5)).shown_cards = 0
         then 1 else (tget s (s.hand_origin - 5)).shown_cards)) := by
  have hlen : ¬s.hand.cards.length = 0 := by
    intro hcon
    exact hne (List.length_eq_zero.mp hcon)
  constructor
  · intro t htar hto
    have heq := mouse_click_hold_tab s hlen t htar
    rw [heq]
    simp only [placeOnTableau]
    rw [if_pos ⟨h5, hto.symm ∘ Eq.symm⟩]
    simp only [tget]
    rw [revealOrigin_shown_at]
    rw [getD_set_ne (fun hc => hto hc.symm)]
  · intro htar f hfo
    have heq := mouse_click_hold_found s hlen htar f hfo
    rw [heq]
    simp only [placeOnFoundation]
    rw [if_pos h5]
    simp only [tget]
    rw [revealOrigin_shown_at]

theorem C8_reveal_rule_witness :
    holdState2.hand.cards ≠ [] ∧ 5 ≤ holdState2.hand_origin ∧
      (tget holdState2.mouse_click (holdState2.hand_origin - 5)).shown_cards = 1 :=
  ⟨by decide, by decide, by
    have h := (C8_reveal_rule holdState2 (by decide) (by decide)).1
      1 (by decide) (by decide)
    exact h.trans (by decide)⟩

lemma revealOrigin_getD_ne {ts : List Tableau} {o k : Nat} (h : k ≠ o) :
    (revealOrigin ts o).getD k dTab = ts.getD k dTab := by
  unfold revealOrigin
  split_ifs with hc
  · exact getD_set_ne h _ _
  · rfl

/-- C6: with a non-empty hand, a click whose pointer lies inside tableau `k`'s
last card quad appends the whole hand to tableau `k` exactly when the tableau
is empty or its last card has the opposite color of, and rank one above, the
hand's first card; on success `shown_cards` grows by the number of appended
cards and the quads are recomputed. -/
theorem C6_tableau_placement (s : GameState) (hR : Reachable s)
    (hne : s.hand.cards ≠ []) (k : Nat) (hk : k < 7)
    (hlast : ((tget s k).card_quads.getD ((tget s k).card_quads.length - 1) dQuad).contains
      s.mouse_pos = true) :
    ((tget s.mouse_click k).cards = (tget s k).cards ++ s.hand.cards ↔
      ((tget s k).cards = [] ∨
        (((tget s k).cards.getD ((tget s k).cards.length - 1) dCard).color ≠
            (s.hand.cards.headD dCard).color ∧
          ((tget s k).cards.getD ((tget s k).cards.length - 1) dCard).rank =
            (s.hand.cards.headD dCard).rank + 1))) ∧
    (((tget s k).cards = [] ∨
        (((tget s k).cards.getD ((tget s k).cards.length - 1) dCard).color ≠
            (s.hand.cards.headD dCard).color ∧
          ((tget s k).cards.getD ((tget s k).cards.length - 1) dCard).rank =
            (s.hand.cards.headD dCard).rank + 1)) →
      (tget s.mouse_click k).shown_cards =
        (tget s k).shown_cards + s.hand.cards.length ∧
      (tget s.mouse_click k).card_quads =
        calculate_card_quads ((tget s k).cards ++ s.hand.cards) (tget s k).x_position) := by
  have hInv := reachable_inv hR
  have hlen : ¬s.hand.cards.length = 0 := by
    intro hcon
    exact hne (List.length_eq_zero.mp hcon)
  have ht : k < s.tableaux.length := by rw [hInv.ntab]; exact hk
  have hh0rank : (s.hand.cards.headD dCard).rank ≤ 12 := by
    have hmem : s.hand.cards.headD dCard ∈ s.hand.cards := by
      have h := List.mem_cons_self (s.hand.cards.headD dCard) s.hand.cards.tail
      rw [headD_cons_tail dCard hne] at h
      exact h
    refine rank_le_of_mem_zones hInv.perm ?_
    simp only [zonesCards, List.mem_append]
    exact Or.inr hmem
  -- the last quad of any column j lies in column j's fan
  have hqmem : ∀ j, j < 7 →
      (tget s j).card_quads.getD ((tget s j).card_quads.length - 1) dQuad ∈
        calculate_card_quads (tget s j).cards (tabX j) := by
    intro j hj
    have hq := hInv.tabq j hj
    have hx := hInv.tabx j hj
    rw [← hx, ← hq]
    refine getD_mem _ _ dQuad ?_
    have := calc_quads_length (tget s j).cards (tget s j).x_position
    rw [← hq] at this
    split_ifs at this <;> omega
  -- the holding-branch predicate at a tableau j ≠ k is false
  have hpredne : ∀ j, j < 7 → j ≠ k →
      holdTabPred (s.hand.cards.headD dCard) s.mouse_pos (tget s j) = false := by
    intro j hj hjk
    unfold holdTabPred
    have hcf := calc_columns_disjoint (Ne.symm hjk) (hqmem k hk) (hqmem j hj) hlast
    rw [hcf]
    simp
  -- the predicate at k itself reduces to the placement condition
  have hcan : holdTabPred (s.hand.cards.headD dCard) s.mouse_pos (tget s k) = true ↔
      ((tget s k).cards = [] ∨
        (((tget s k).cards.getD ((tget s k).cards.length - 1) dCard).color ≠
            (s.hand.cards.headD dCard).color ∧
          ((tget s k).cards.getD ((tget s k).cards.length - 1) dCard).rank =
            (s.hand.cards.headD dCard).rank + 1)) := by
    unfold holdTabPred can_place_on_tableau
    rw [hlast]
    have haddu : addu8 (s.hand.cards.headD dCard).rank 1 =
        (s.hand.cards.headD dCard).rank + 1 := addu8_eq (by omega)
    rw [haddu]
    simp [List.length_eq_zero]
  by_cases hcond : (tget s k).cards = [] ∨
      (((tget s k).cards.getD ((tget s k).cards.length - 1) dCard).color ≠
          (s.hand.cards.headD dCard).color ∧
        ((tget s k).cards.getD ((tget s k).cards.length - 1) dCard).rank =
          (s.hand.cards.headD dCard).rank + 1)
  · -- the drop succeeds and lands on tableau k
    have htar : holdTabTarget (s.hand.cards.headD dCard) s.mouse_pos s.tableaux 0 = some k := by
      unfold holdTabTarget
      rw [firstIdx_eq_some_iff _ dTab]
      refine ⟨k, ht, by omega, ?_, ?_⟩
      · exact hcan.mpr hcond
      · intro j hj
        exact hpredne j (by omega) (by omega)
    have heq := mouse_click_hold_tab s hlen k htar
    have hbound := tab_hand_le s hInv.perm k ht
    have hshb := hInv.shle k hk
    have haddsh : addu8 (tget s k).shown_cards s.hand.cards.length =
        (tget s k).shown_cards + s.hand.cards.length := addu8_eq (by omega)
    have hresult : tget s.mouse_click k =
        { tget s k with
            shown_cards := (tget s k).shown_cards + s.hand.cards.length
            cards := (tget s k).cards ++ s.hand.cards
            card_quads := calculate_card_quads ((tget s k).cards ++ s.hand.cards)
              (tget s k).x_position } := by
      rw [heq]
      simp only [placeOnTableau, tget]
      split_ifs with hrev
      · rw [revealOrigin_getD_ne hrev.2, getD_set, if_pos ⟨rfl, ht⟩]
        rw [tget] at haddsh
        rw [haddsh]
      · rw [getD_set, if_pos ⟨rfl, ht⟩]
        rw [tget] at haddsh
        rw [haddsh]
    refine ⟨⟨fun _ => hcond, fun _ => ?_⟩, fun _ => ⟨?_, ?_⟩⟩
    · rw [hresult]
    · rw [hresult]
    · rw [hresult]
  · -- no tableau accepts the drop: tableau k's cards are unchanged
    have htar : holdTabTarget (s.hand.cards.headD dCard) s.mouse_pos s.tableaux 0 = none := by
      unfold holdTabTarget
      rw [firstIdx_eq_none_iff]
      intro x hx
      obtain ⟨j, hj, hget⟩ := List.mem_iff_getElem.mp hx
      have hgetD : s.tableaux.getD j dTab = x := by
        rw [List.getD_eq_getElem _ _ hj, hget]
      have hj7 : j < 7 := by rw [← hInv.ntab]; exact hj
      by_cases hjk : j = k
      · subst hjk
        rw [← hgetD]
        cases hp : holdTabPred (s.hand.cards.headD dCard) s.mouse_pos (s.tableaux.getD j dTab) with
        | false => rfl
        | true =>
          rw [show s.tableaux.getD j dTab = tget s j from rfl] at hp
          exact absurd (hcan.mp hp) hcond
      · rw [← hgetD]
        rw [show s.tableaux.getD j dTab = tget s j from rfl]
        exact hpredne j hj7 hjk
    have hcards : (tget s.mouse_click k).cards = (tget s k).cards := by
      cases hfo : holdFoundTarget s.hand.cards s.mouse_pos s.foundations 0 with
      | some f =>
        have heq := mouse_click_hold_found s hlen htar f hfo
        rw [heq]
        simp only [placeOnFoundation, tget]
        split_ifs with hrev
        · rw [revealOrigin_cards]
        · rfl
      | none =>
        have heq := mouse_click_hold_none s hlen htar hfo
        rw [heq]
    refine ⟨⟨fun happ => ?_, fun hc => absurd hc hcond⟩, fun hc => absurd hc hcond⟩
    rw [hcards] at happ
    have hlen2 := congrArg List.length happ
    simp only [List.length_append] at hlen2
    have : s.hand.cards.length = 0 := by omega
    exact absurd this hlen

theorem C6_tableau_placement_witness :
    holdState2.hand.cards ≠ [] ∧
      (tget holdState2.mouse_click 1).cards =
        (tget holdState2 1).cards ++ holdState2.hand.cards ∧
      (tget holdState2.mouse_click 1).shown_cards =
        (tget holdState2 1).shown_cards + holdState2.hand.cards.length :=
  ⟨by decide,
    (C6_tableau_placement holdState2 reachable_holdState2 (by decide) 1 (by decide)
      (by decide)).1.mpr (by decide),
    ((C6_tableau_placement holdState2 reachable_holdState2 (by decide) 1 (by decide)
      (by decide)).2 (by decide)).1⟩

/-- C7: with an empty hand and the pointer over neither stock nor talon, the
idle tableau scan of tableau `k` selects index `i` exactly when `i` is the
greatest face-up index (`i ≥ len - shown_cards`) whose quad contains the
pointer; on such a hit the click moves `cards[i..]` into the hand as one unit,
keeps `cards[..i]`, decreases `shown_cards` by the number removed, recomputes
the quads, and sets `hand_origin = 5 + k`. -/
theorem C7_tableau_pickup (s : GameState) (hR : Reachable s) (hh : s.hand.cards = [])
    (hstock : s.stock.quad.contains s.mouse_pos = false)
    (htalon : s.talon.quad.contains s.mouse_pos = false)
    (k : Nat) (hk : k < 7) (i : Nat) :
    (tabHitIdx (tget s k) s.mouse_pos = some i ↔
      (0 < (tget s k).cards.length ∧
        (tget s k).cards.length - (tget s k).shown_cards ≤ i ∧
        i < (tget s k).cards.length ∧
        ((tget s k).card_quads.getD i dQuad).contains s.mouse_pos = true ∧
        ∀ j, j < (tget s k).cards.length →
          (tget s k).cards.length - (tget s k).shown_cards ≤ j →
          ((tget s k).card_quads.getD j dQuad).contains s.mouse_pos = true → j ≤ i)) ∧
    (tabHitIdx (tget s k) s.mouse_pos = some i →
      s.mouse_click = tableauPickup s k i ∧
      (tget s.mouse_click k).cards = (tget s k).cards.take i ∧
      s.mouse_click.hand.cards = (tget s k).cards.drop i ∧
      (tget s.mouse_click k).shown_cards =
        (tget s k).shown_cards - ((tget s k).cards.length - i) ∧
      (tget s.mouse_click k).card_quads =
        calculate_card_quads ((tget s k).cards.take i) (tget s k).x_position ∧
      s.mouse_click.hand_origin = 5 + k) := by
  have hInv := reachable_inv hR
  have ht : k < s.tableaux.length := by rw [hInv.ntab]; exact hk
  have hquads := hInv.tabq k hk
  have hqlen : (tget s k).card_quads.length =
      if (tget s k).cards.length = 0 then 1 else (tget s k).cards.length := by
    rw [hquads, calc_quads_length]
  have hqmem : ∀ j, j < 7 → ∀ idx, idx < (tget s j).card_quads.length →
      (tget s j).card_quads.getD idx dQuad ∈
        calculate_card_quads (tget s j).cards (tabX j) := by
    intro j hj idx hidx
    have hq := hInv.tabq j hj
    have hx := hInv.tabx j hj
    rw [← hx, ← hq]
    exact getD_mem _ _ dQuad hidx
  have hiff : tabHitIdx (tget s k) s.mouse_pos = some i ↔
      (0 < (tget s k).cards.length ∧
        (tget s k).cards.length - (tget s k).shown_cards ≤ i ∧
        i < (tget s k).cards.length ∧
        ((tget s k).card_quads.getD i dQuad).contains s.mouse_pos = true ∧
        ∀ j, j < (tget s k).cards.length →
          (tget s k).cards.length - (tget s k).shown_cards ≤ j →
          ((tget s k).card_quads.getD j dQuad).contains s.mouse_pos = true → j ≤ i) := by
    rw [tabHitIdx_some_iff]
    by_cases hz : (tget s k).cards.length = 0
    · constructor
      · rintro ⟨_, hpred, _⟩
        unfold tabHitPred at hpred
        simp only [Bool.and_eq_true, decide_eq_true_eq] at hpred
        omega
      · rintro ⟨h0, _⟩
        omega
    · have hqlen' : (tget s k).card_quads.length = (tget s k).cards.length := by
        rw [hqlen, if_neg hz]
      constructor
      · rintro ⟨hiq, hpred, hmax⟩
        unfold tabHitPred at hpred
        simp only [Bool.and_eq_true, decide_eq_true_eq] at hpred
        obtain ⟨⟨h0, hface⟩, hcont⟩ := hpred
        refine ⟨h0, hface, by omega, hcont, ?_⟩
        intro j hj hfj hcj
        by_contra hji
        have hpj : tabHitPred (tget s k) s.mouse_pos j = true := by
          unfold tabHitPred
          rw [hcj]
          simp only [Bool.and_true, Bool.and_eq_true, decide_eq_true_eq]
          exact ⟨h0, hfj⟩
        have hpf := hmax j (by omega) (by omega)
        rw [hpj] at hpf
        cases hpf
      · rintro ⟨h0, hface, hilt, hcont, hmax⟩
        refine ⟨by omega, ?_, ?_⟩
        · unfold tabHitPred
          rw [hcont]
          simp only [Bool.and_true, Bool.and_eq_true, decide_eq_true_eq]
          exact ⟨h0, hface⟩
        · intro j hij hjq
          unfold tabHitPred
          cases hcj : ((tget s k).card_quads.getD j dQuad).contains s.mouse_pos with
          | false => rw [Bool.and_false]
          | true =>
            by_cases hfj : (tget s k).cards.length - (tget s k).shown_cards ≤ j
            · have := hmax j (by omega) hfj hcj
              omega
            · have hdf : decide ((tget s k).cards.length - (tget s k).shown_cards ≤ j)
                  = false := decide_eq_false hfj
              simp only [Bool.and_true, hdf, Bool.and_false]
  refine ⟨hiff, ?_⟩
  intro hhit
  obtain ⟨h0, hface, hilt, hcont, _⟩ := hiff.mp hhit
  have hiq : i < (tget s k).card_quads.length := by
    rw [hqlen, if_neg (by omega : ¬(tget s k).cards.length = 0)]
    omega
  have htar : firstTabHit s.mouse_pos s.tableaux 0 = some (k, i) := by
    rw [firstTabHit_eq_some_iff]
    refine ⟨k, ht, by omega, hhit, ?_⟩
    intro j hj
    rw [show s.tableaux.getD j dTab = tget s j from rfl]
    rw [tabHitIdx_none_iff]
    intro idx hidx
    unfold tabHitPred
    have hj7 : j < 7 := by omega
    have hcf := calc_columns_disjoint (Ne.symm (by omega : j ≠ k))
      (hqmem k hk i hiq) (hqmem j hj7 idx hidx) hcont
    rw [hcf, Bool.and_false]
  have heq := mouse_click_idle_tab s (by simp [hh]) hstock htalon k i htar
  have hshb := hInv.shle k hk
  have hb52 := tab_hand_le s hInv.perm k ht
  have hsub : subu8 (tget s k).shown_cards ((tget s k).cards.length - i) =
      (tget s k).shown_cards - ((tget s k).cards.length - i) :=
    subu8_sub (by omega) (by omega)
  have hresult : tget s.mouse_click k =
      { tget s k with
          shown_cards := (tget s k).shown_cards - ((tget s k).cards.length - i)
          cards := (tget s k).cards.take i
          card_quads := calculate_card_quads ((tget s k).cards.take i)
            (tget s k).x_position } := by
    rw [heq, tableauPickup_def]
    simp only [tget]
    rw [getD_set, if_pos ⟨rfl, ht⟩]
    rw [tget] at hsub
    rw [hsub]
  refine ⟨heq, ?_, ?_, ?_, ?_, ?_⟩
  · rw [hresult]
  · rw [heq, tableauPickup_def]
  · rw [hresult]
  · rw [hresult]
  · rw [heq, tableauPickup_def]

theorem C7_tableau_pickup_witness :
    s0tab.hand.cards = [] ∧
      tabHitIdx (tget s0tab 6) s0tab.mouse_pos = some 6 ∧
      s0tab.mouse_click.hand.cards = (tget s0tab 6).cards.drop 6 ∧
      s0tab.mouse_click.hand_origin = 5 + 6 :=
  ⟨by decide, by decide,
    ((C7_tableau_pickup s0tab reachable_s0tab (by decide) (by decide) (by decide) 6
      (by decide) 6).2 (by decide)).2.2.1,
    ((C7_tableau_pickup s0tab reachable_s0tab (by decide) (by decide) (by decide) 6
      (by decide) 6).2 (by decide)).2.2.2.2.2⟩

end Solitaire
